import Mathlib

/-!
# Contact Management System: a verification development

A shallow embedding of `ContactManagement.c++` (classes `Contact` and
`ContactManager`) and theorems about its validators, its binary store file and
its store operations.

Modelling conventions.
* A `std::string` is a finite list of bytes (`Text`); `size_t` is 64 bits wide.
* `std::regex` patterns are transcribed into the syntax tree `Regex`;
  `regex_match` is whole-string matching of that tree, in the classic "C"
  locale (`\d` is `0`-`9`, bracket ranges compare byte values).
* `cin` is the list of the lines still to be read, together with the fact
  whether the input ends with a newline. On exhausted input `getline` into an
  empty string leaves it empty; a prompt loop that reads again into a
  rejected string is modelled by `promptLoop`.
* `cout`/`cerr` are a list of `Output` events, oldest first.
* The file system maps a file name to the file's bytes; every existing file
  can be opened and every write succeeds.
* The algorithm behind `std::sort` is library code: `sortContacts` takes it as
  a parameter, bound by what the C++ standard promises of it. The algorithm of
  GNU libstdc++ is transcribed as well, for a concrete run.
* `regex_match` is library code too. Its result is the meaning of the pattern;
  whether the call returns depends on the library. For `isValidEmail` the
  recursive matcher of GNU libstdc++ is transcribed, with the process stack
  as a bound on the depth of its recursion (`isValidEmailOnStack`).
-/

namespace ContactManagement

/-! ## Bytes and strings -/

/-- One `char` of a `std::string`, as its unsigned value. -/
abbrev Byte := Fin 256

/-- A `std::string`: a finite sequence of bytes. -/
abbrev Text := List Byte

/-- The bytes of a string literal of the source (UTF-8). -/
def str (s : String) : Text :=
  (s.data.flatMap String.utf8EncodeChar).map (fun b => b.val)

/-- The byte of an ASCII character literal. -/
def ch (c : Char) : Byte := Fin.ofNat c.toNat

/-! ## Regular expressions (`std::regex`, ECMAScript grammar) -/

/-- Syntax of the part of the ECMAScript grammar the program's patterns use. -/
inductive Regex where
  /-- The assertion `^`. -/
  | bol : Regex
  /-- The assertion `$`. -/
  | eol : Regex
  /-- A single character: a literal, an escape class or a bracket expression. -/
  | set (p : Byte → Bool) : Regex
  /-- Concatenation. -/
  | cat (a b : Regex) : Regex
  /-- Alternation `a|b`. -/
  | alt (a b : Regex) : Regex
  /-- A capturing group `(r)`. -/
  | group (r : Regex) : Regex
  /-- Repetition `r{lo,hi}` with `lo ≤ hi`; `hi = none` is `r{lo,}`. So `r?` is
  `rep r 0 (some 1)` and `r+` is `rep r 1 none`. -/
  | rep (r : Regex) (lo : Nat) (hi : Option Nat) : Regex

/-- All the ways to cut a string in two, shortest first part first. -/
def splits : Text → List (Text × Text)
  | [] => [([], [])]
  | c :: cs => ([], c :: cs) :: (splits cs).map (fun p => (c :: p.1, p.2))

/-- At most `e` iterations of `body` cover `s` (`pre` and `post` are the
text before and after `s`). -/
def repUpTo (body : Text → Text → Text → Bool) : Nat → Text → Text → Text → Bool
  | 0, _, s, _ => s.isEmpty
  | e + 1, pre, s, post =>
    s.isEmpty ||
      (splits s).any (fun p =>
        body pre p.1 (p.2 ++ post) && repUpTo body e (pre ++ p.1) p.2 post)

/-- Between `l` and `l + e` iterations of `body` cover `s`. -/
def repFrom (body : Text → Text → Text → Bool) : Nat → Nat → Text → Text → Text → Bool
  | 0, e, pre, s, post => repUpTo body e pre s post
  | l + 1, e, pre, s, post =>
    (splits s).any (fun p =>
      body pre p.1 (p.2 ++ post) && repFrom body l e (pre ++ p.1) p.2 post)

/-- The regular expression matches exactly the piece `s` of the subject
`pre ++ s ++ post`. An unbounded repetition needs at most `s.length`
iterations beyond its minimum. -/
def Regex.matches : Regex → Text → Text → Text → Bool
  | .bol, pre, s, _ => s.isEmpty && pre.isEmpty
  | .eol, _, s, post => s.isEmpty && post.isEmpty
  | .set p, _, s, _ =>
    match s with
    | [c] => p c
    | _ => false
  | .cat a b, pre, s, post =>
    (splits s).any (fun p =>
      a.matches pre p.1 (p.2 ++ post) && b.matches (pre ++ p.1) p.2 post)
  | .alt a b, pre, s, post => a.matches pre s post || b.matches pre s post
  | .group r, pre, s, post => r.matches pre s post
  | .rep r lo (some hi), pre, s, post => repFrom r.matches lo (hi - lo) pre s post
  | .rep r lo none, pre, s, post => repFrom r.matches lo s.length pre s post

/-- `std::regex_match(s, re)`: the whole of `s` matches `re`. -/
def regex_match (s : Text) (re : Regex) : Bool := re.matches [] s []

/-- A literal character. -/
def lit (c : Char) : Byte → Bool := fun b => b == ch c

/-- A bracket range `[lo-hi]`. -/
def range (lo hi : Char) : Byte → Bool := fun b => decide (ch lo ≤ b) && decide (b ≤ ch hi)

/-- The escape class `\d`. -/
def digit : Byte → Bool := range '0' '9'

/-! ## `Contact`: the validators -/

/-- The pattern `^\+?[1-9]\d{7,14}$`. -/
def phonePattern : Regex :=
  .cat .bol (.cat (.rep (.set (lit '+')) 0 (some 1))
    (.cat (.set (range '1' '9')) (.cat (.rep (.set digit) 7 (some 14)) .eol)))

/-- `Contact::isValidPhone`. The pattern is well formed, so the
`regex_error` handler is not entered. -/
def isValidPhone (phone : Text) : Bool := regex_match phone phonePattern

/-- The bracket expression `[a-zA-Z0-9._%+-]`. -/
def emailLocalSet : Byte → Bool := fun b =>
  range 'a' 'z' b || range 'A' 'Z' b || range '0' '9' b ||
    lit '.' b || lit '_' b || lit '%' b || lit '+' b || lit '-' b

/-- The bracket expression `[a-zA-Z0-9.-]`. -/
def emailDomainSet : Byte → Bool := fun b =>
  range 'a' 'z' b || range 'A' 'Z' b || range '0' '9' b || lit '.' b || lit '-' b

/-- The bracket expression `[a-zA-Z]`. -/
def letterSet : Byte → Bool := fun b => range 'a' 'z' b || range 'A' 'Z' b

/-- The pattern `[a-zA-Z0-9._%+-]+@[a-zA-Z0-9.-]+\.[a-zA-Z]{2,}`. -/
def emailPattern : Regex :=
  .cat (.rep (.set emailLocalSet) 1 none) (.cat (.set (lit '@'))
    (.cat (.rep (.set emailDomainSet) 1 none) (.cat (.set (lit '.'))
      (.rep (.set letterSet) 2 none))))

/-- `Contact::isValidEmail`. -/
def isValidEmail (email : Text) : Bool := regex_match email emailPattern

/-- The shape claim C4 gives for a valid phone number: an optional `+`, a digit
`1`-`9`, then 7 to 14 further digits. -/
def PhoneShape (t : Text) : Prop :=
  ∃ (plus : Text) (d : Byte) (ds : Text),
    t = plus ++ d :: ds ∧ (plus = [] ∨ plus = [ch '+']) ∧
      (ch '1' ≤ d ∧ d ≤ ch '9') ∧
      (7 ≤ ds.length ∧ ds.length ≤ 14) ∧ ∀ c ∈ ds, ch '0' ≤ c ∧ c ≤ ch '9'

/-- An ASCII letter, `A`-`Z` or `a`-`z`. -/
def IsLetter (c : Byte) : Prop := (ch 'a' ≤ c ∧ c ≤ ch 'z') ∨ (ch 'A' ≤ c ∧ c ≤ ch 'Z')

/-- A decimal digit, `0`-`9`. -/
def IsDigit (c : Byte) : Prop := ch '0' ≤ c ∧ c ≤ ch '9'

/-- A character of `[A-Za-z0-9._%+-]`, as claim C6 lists them. -/
def IsLocalChar (c : Byte) : Prop :=
  IsLetter c ∨ IsDigit c ∨ c = ch '.' ∨ c = ch '_' ∨ c = ch '%' ∨ c = ch '+' ∨ c = ch '-'

/-- A character of `[A-Za-z0-9.-]`, as claim C6 lists them. -/
def IsDomainChar (c : Byte) : Prop := IsLetter c ∨ IsDigit c ∨ c = ch '.' ∨ c = ch '-'

/-- The shape claim C6 gives for a valid address: `local@domain.tld`, the final
label `tld` being at least two letters after the last dot. -/
def EmailShape (t : Text) : Prop :=
  ∃ (loc dom tld : Text),
    t = loc ++ ch '@' :: (dom ++ ch '.' :: tld) ∧
      (loc ≠ [] ∧ ∀ c ∈ loc, IsLocalChar c) ∧
      (dom ≠ [] ∧ ∀ c ∈ dom, IsDomainChar c) ∧
      (2 ≤ tld.length ∧ ∀ c ∈ tld, IsLetter c) ∧ ch '.' ∉ tld

/-- The pattern `^(0[1-9]|[12][0-9]|3[01])/(0[1-9]|1[0-2])/\d{4}$`. -/
def datePattern : Regex :=
  .cat .bol
    (.cat
      (.group (.alt (.cat (.set (lit '0')) (.set (range '1' '9')))
        (.alt (.cat (.set (fun b => lit '1' b || lit '2' b)) (.set (range '0' '9')))
          (.cat (.set (lit '3')) (.set (fun b => lit '0' b || lit '1' b))))))
      (.cat (.set (lit '/'))
        (.cat
          (.group (.alt (.cat (.set (lit '0')) (.set (range '1' '9')))
            (.cat (.set (lit '1')) (.set (range '0' '2')))))
          (.cat (.set (lit '/')) (.cat (.rep (.set digit) 4 (some 4)) .eol)))))

/-- `std::string::substr(pos, n)`; `none` is the `out_of_range` exception. -/
def substr (s : Text) (pos n : Nat) : Option Text :=
  if pos > s.length then none else some ((s.drop pos).take n)

/-- `isspace` in the "C" locale. -/
def isSpace (b : Byte) : Bool := b == ch ' ' || (decide (9 ≤ b.val) && decide (b.val ≤ 13))

/-- `std::stoi(s)`: skip white space, read an optional sign and the longest
run of decimal digits. `none` is an exception: `invalid_argument` when there
is no digit, `out_of_range` when the value does not fit an `int`. -/
def stoi (s : Text) : Option Int :=
  let s₁ := s.dropWhile isSpace
  let signed : Bool × Text :=
    match s₁ with
    | c :: cs => if c = ch '-' then (true, cs) else if c = ch '+' then (false, cs) else (false, s₁)
    | [] => (false, [])
  let ds := signed.2.takeWhile digit
  if ds.isEmpty then none
  else
    let v : Nat := ds.foldl (fun acc d => 10 * acc + (d.val - 48)) 0
    let r : Int := if signed.1 then -(v : Int) else (v : Int)
    if r < -2147483648 ∨ 2147483647 < r then none else some r

/-- How the body of a `try` block can fail. -/
inductive Fault where
  /-- An exception derived from `std::exception` was thrown. -/
  | thrown : Fault
  /-- An array was indexed outside its bounds (undefined behaviour). -/
  | outOfBounds : Fault
  deriving DecidableEq, Repr

/-- The `try` block of `Contact::isValidDate`; `currentYear` is
`localtime(&now)->tm_year + 1900`. -/
def isValidDateBody (currentYear : Int) (date : Text) : Except Fault Bool :=
  if date.isEmpty then .ok true
  else if !regex_match date datePattern then .ok false
  else
    match (substr date 0 2).bind stoi, (substr date 3 2).bind stoi,
      (substr date 6 4).bind stoi with
    | some day, some month, some year =>
      if year > currentYear then .ok false
      else
        let daysInMonth : List Int := [31, 28, 31, 30, 31, 30, 31, 31, 30, 31, 30, 31]
        let daysInMonth : List Int :=
          if year.tmod 4 = 0 ∧ (year.tmod 100 ≠ 0 ∨ year.tmod 400 = 0) then daysInMonth.set 1 29
          else daysInMonth
        if month - 1 < 0 then .error .outOfBounds
        else
          match daysInMonth[(month - 1).toNat]? with
          | some days => .ok (decide (day ≤ days))
          | none => .error .outOfBounds
    | _, _, _ => .error .thrown

/-- `Contact::isValidDate`. The handler turns an exception into `false`. An
out-of-bounds index has no defined result; `isValidDateBody_ok` shows that the
body never fails, so the value chosen for that case is immaterial. -/
def isValidDate (currentYear : Int) (date : Text) : Bool :=
  match isValidDateBody currentYear date with
  | .ok b => b
  | .error _ => false

/-- `Contact::isValidCategory`: linear search in the four categories. -/
def isValidCategory (category : Text) : Bool :=
  let validCategories : List Text := [str "Personal", str "Work", str "Family", str "Other"]
  validCategories.contains category

/-- The value of a decimal digit. -/
def digitValue (c : Byte) : Nat := c.val - 48

/-- The Gregorian leap-year rule, as claim C5 words it. -/
def IsLeapYear (y : Nat) : Prop := y % 4 = 0 ∧ (y % 100 ≠ 0 ∨ y % 400 = 0)

instance (y : Nat) : Decidable (IsLeapYear y) := by unfold IsLeapYear; infer_instance

/-- The number of days of month `m` in year `y`. -/
def calendarDays (m y : Nat) : Nat :=
  if m = 2 then (if IsLeapYear y then 29 else 28)
  else if m = 4 ∨ m = 6 ∨ m = 9 ∨ m = 11 then 30
  else 31

/-- The shape claim C5 gives for a valid non-empty date: `DD/MM/YYYY` with a
month 1-12, a year not after `currentYear` and a day of that month. -/
def DateShape (currentYear : Int) (t : Text) : Prop :=
  ∃ d₁ d₂ m₁ m₂ y₁ y₂ y₃ y₄ : Byte,
    t = [d₁, d₂, ch '/', m₁, m₂, ch '/', y₁, y₂, y₃, y₄] ∧
      (IsDigit d₁ ∧ IsDigit d₂ ∧ IsDigit m₁ ∧ IsDigit m₂ ∧
        IsDigit y₁ ∧ IsDigit y₂ ∧ IsDigit y₃ ∧ IsDigit y₄) ∧
      (1 ≤ 10 * digitValue m₁ + digitValue m₂ ∧ 10 * digitValue m₁ + digitValue m₂ ≤ 12) ∧
      ((1000 * digitValue y₁ + 100 * digitValue y₂ + 10 * digitValue y₃ + digitValue y₄ : Nat)
        : Int) ≤ currentYear ∧
      (1 ≤ 10 * digitValue d₁ + digitValue d₂ ∧
        10 * digitValue d₁ + digitValue d₂ ≤
          calendarDays (10 * digitValue m₁ + digitValue m₂)
            (1000 * digitValue y₁ + 100 * digitValue y₂ + 10 * digitValue y₃ + digitValue y₄))

/-! ## `Contact` and the state of the program -/

/-- The data members of class `Contact`. -/
structure Contact where
  name : Text
  phone : Text
  email : Text
  address : Text
  birthday : Text
  notes : Text
  category : Text
  deriving DecidableEq

/-- What the program writes to `cout` and `cerr`. -/
inductive Output where
  /-- One output statement of fixed text. -/
  | text (s : String) : Output
  /-- One call of `Contact::display`. -/
  | display (c : Contact) : Output

/-- The contacts shown by `Contact::display`, in the order shown. -/
def displayed : List Output → List Contact
  | [] => []
  | .text _ :: os => displayed os
  | .display c :: os => c :: displayed os

/-- A `ContactManager` object together with its environment: the files on
disk and what has been written to the console so far. -/
structure ContactManager where
  /-- The member `vector<Contact> contacts`. -/
  contacts : List Contact
  /-- The file system: the bytes of each existing file. -/
  files : String → Option (List Byte)
  /-- The console output, oldest first. -/
  console : List Output

/-- The member `filename`. -/
def filename : String := "contacts.dat"

/-- Write `bytes` to the file `name`, replacing it. -/
def writeFile (files : String → Option (List Byte)) (name : String) (bytes : List Byte) :
    String → Option (List Byte) :=
  fun f => if f = name then some bytes else files f

/-- The lines of `cin` that have not been read yet. -/
abbrev Input := List Text

/-- `getline(cin, s)` into a string `s` that is empty before the call, as every
string the program reads outside a prompt loop is: the next line; the empty
string once the input is exhausted (whether `getline` then clears `s` or fails
before clearing it, `s` is empty afterwards). -/
def getline : Input → Text × Input
  | [] => ([], [])
  | l :: ls => (l, ls)

/-! ## The binary store file -/

/-- The `k` low bytes of `n`, least significant first. -/
def toBytesLE : Nat → Nat → List Byte
  | 0, _ => []
  | k + 1, n => Fin.ofNat (n % 256) :: toBytesLE k (n / 256)

/-- The number a little-endian byte sequence stands for. -/
def fromBytesLE : List Byte → Nat
  | [] => 0
  | b :: bs => b.val + 256 * fromBytesLE bs

/-- The object representation of a `size_t`: `sizeof(size_t)` is 8. -/
def sizeBytes (n : Nat) : List Byte := toBytesLE 8 (n % 2 ^ 64)

/-- The `fields` vector of `saveToFile` and `loadFromFile`. -/
def Contact.fields (c : Contact) : List Text :=
  [c.name, c.phone, c.email, c.address, c.birthday, c.notes, c.category]

/-- The two `file.write` calls for one field: its length, then its bytes. -/
def writeField (field : Text) : List Byte := sizeBytes field.length ++ field

/-- The bytes `saveToFile` writes: the number of contacts, then the seven
fields of every contact. -/
def saveBytes (contacts : List Contact) : List Byte :=
  sizeBytes contacts.length ++ contacts.flatMap (fun c => c.fields.flatMap writeField)

/-- `ContactManager::saveToFile`. -/
def saveToFile (m : ContactManager) : ContactManager :=
  { m with
    files := writeFile m.files filename (saveBytes m.contacts)
    console := m.console ++ [.text "Data saved successfully!"] }

/-- An `ifstream`: the bytes not yet read, and whether the stream is still
good (neither `failbit` nor `eofbit` set). -/
structure IStream where
  rest : List Byte
  good : Bool

/-- `file.read(p, n)`: the bytes stored at `p` and the stream afterwards. A
short read stores what is left and sets `eofbit` and `failbit`; a stream that
is not good stores nothing. -/
def IStream.read (s : IStream) (n : Nat) : List Byte × IStream :=
  if s.good then
    if n ≤ s.rest.length then (s.rest.take n, { rest := s.rest.drop n, good := true })
    else (s.rest, { rest := [], good := false })
  else ([], s)

/-- The `runtime_error`s thrown while loading. -/
inductive LoadError where
  | fieldLength : LoadError
  | fieldData : LoadError
  deriving DecidableEq

/-- The message `e.what()`. -/
def LoadError.what : LoadError → String
  | .fieldLength => "Error reading field length"
  | .fieldData => "Error reading field data"

/-- One pass of the inner loop of `loadFromFile`: read a length, resize the
field, read that many bytes. A `resize` that fails throws a `std::exception`
too and reaches the same handler as `fieldData`. -/
def readField (s : IStream) : Except LoadError (Text × IStream) :=
  let r₁ := s.read 8
  if !r₁.2.good then .error .fieldLength
  else
    let len := fromBytesLE r₁.1
    let r₂ := r₁.2.read len
    if !r₂.2.good then .error .fieldData else .ok (r₂.1, r₂.2)

/-- The inner loop of `loadFromFile` over the `k` slots of `fields`. -/
def readFields : Nat → IStream → Except LoadError (List Text × IStream)
  | 0, s => .ok ([], s)
  | k + 1, s =>
    match readField s with
    | .error e => .error e
    | .ok (field, s₁) =>
      match readFields k s₁ with
      | .error e => .error e
      | .ok (fields, s₂) => .ok (field :: fields, s₂)

/-- The `emplace_back` of `loadFromFile`: a contact from `fields[0..6]`. -/
def Contact.ofFields (fields : List Text) : Contact :=
  { name := fields.getD 0 [], phone := fields.getD 1 [], email := fields.getD 2 [],
    address := fields.getD 3 [], birthday := fields.getD 4 [], notes := fields.getD 5 [],
    category := fields.getD 6 [] }

/-- The outer loop of `loadFromFile`: `numContacts` records appended to
`contacts`. -/
def readContacts : Nat → IStream → List Contact → Except LoadError (List Contact)
  | 0, _, contacts => .ok contacts
  | n + 1, s, contacts =>
    match readFields 7 s with
    | .error e => .error e
    | .ok (fields, s₁) => readContacts n s₁ (contacts ++ [Contact.ofFields fields])

/-- The unchecked `file.read` into the uninitialised `numContacts`, whose
indeterminate initial value is `indeterminate`: the bytes read overwrite the
low bytes of the variable. -/
def readCount (indeterminate : Nat) (s : IStream) : Nat × IStream :=
  let r := s.read 8
  (fromBytesLE (r.1 ++ (sizeBytes indeterminate).drop r.1.length), r.2)

/-- `ContactManager::loadFromFile`. A missing file leaves the manager as it
is. A `runtime_error` enters the handler, which copies the file to
`contacts.dat.backup` and clears the contacts. -/
def loadFromFile (indeterminate : Nat) (m : ContactManager) : ContactManager :=
  match m.files filename with
  | none => m
  | some bytes =>
    let r := readCount indeterminate { rest := bytes, good := true }
    match readContacts r.1 r.2 [] with
    | .ok contacts =>
      { m with
        contacts := contacts
        console := m.console ++
          [.text ("Loaded " ++ toString contacts.length ++ " contacts successfully!")] }
    | .error e =>
      { contacts := []
        files := writeFile m.files (filename ++ ".backup") bytes
        console := m.console ++
          [.text ("Error loading from file: " ++ e.what),
            .text "The contacts file might be corrupted. Creating backup...",
            .text ("Backup created as " ++ filename ++ ".backup")] }

/-- The store fits the program's types: `vector::size()` and
`string::length()` are `size_t` values. -/
def FitsSizeT (contacts : List Contact) : Prop :=
  contacts.length < 2 ^ 64 ∧ ∀ c ∈ contacts, ∀ f ∈ c.fields, f.length < 2 ^ 64

/-- A sample store: a contact with empty and multi-byte fields, then two more
contacts. -/
def sampleContacts : List Contact :=
  [{ name := str "Zoë", phone := str "+4915112345678", email := str "zoe@example.org",
     address := [], birthday := [], notes := str "née Müller", category := str "Family" },
   { name := str "Bob", phone := str "12345678", email := str "bob@mail.example.com",
     address := str "1 Main St", birthday := str "29/02/2024", notes := [],
     category := str "Work" },
   { name := str "Zoë", phone := str "87654321", email := str "z@z.zz",
     address := [], birthday := [], notes := [], category := str "Personal" }]

/-- A manager holding the sample store, with no file on disk. -/
def sampleManager : ContactManager :=
  { contacts := sampleContacts, files := fun _ => none, console := [] }

/-- A fresh manager whose store file is the first 100 bytes of the file saved
for the sample store. -/
def truncatedManager : ContactManager :=
  { contacts := [], files := writeFile (fun _ => none) filename ((saveBytes sampleContacts).take 100),
    console := [] }

/-! ## `ContactManager`: the store operations -/

/-- Append output to the console. -/
def ContactManager.print (m : ContactManager) (out : List Output) : ContactManager :=
  { m with console := m.console ++ out }

/-- A loop `do { cout << prompt; getline(cin, s); if (!ok(s)) cout << complaint; }
while (!ok(s));` over a string `s` that is empty before the loop: the accepted
line, the input left and the output; `none` is a loop that never ends.
`finalNewline` says whether the input ends with a newline.

When the last line has been read and rejected, the next `getline` depends on
how that line ended. After a final newline the stream is still good: `getline`
clears `s` and then fails, so the loop goes on with the empty string, and with
it for ever if it is rejected too. Without a final newline the read of the last
line has set `eofbit`: `getline` fails before it clears `s`, so `s` keeps the
rejected line and the loop never ends. -/
def promptLoop (prompt complaint : String) (ok : Text → Bool) (finalNewline : Bool) :
    Input → Option (Text × Input × List Output)
  | [] => if ok [] then some ([], [], [.text prompt]) else none
  | l :: ls =>
    if ok l then some (l, ls, [.text prompt])
    else if ls.isEmpty && !finalNewline then none
    else
      (promptLoop prompt complaint ok finalNewline ls).map
        (fun r => (r.1, r.2.1, .text prompt :: .text complaint :: r.2.2))

/-- `ContactManager::addContact`, after its `cin.ignore`; `finalNewline` says
whether the input ends with a newline; `none` when a prompt loop never ends. -/
def addContact (currentYear : Int) (m : ContactManager) (cin : Input) (finalNewline : Bool) :
    Option (ContactManager × Input) :=
  match promptLoop "Enter Name: " "Name cannot be empty! Please try again."
      (fun s => !s.isEmpty) finalNewline cin with
  | none => none
  | some (name, cin, out₁) =>
    match promptLoop "Enter Phone Number (E.g., +1234567890): "
        "Invalid phone number format! Please enter 8-15 digits with optional '+' at start."
        isValidPhone finalNewline cin with
    | none => none
    | some (phone, cin, out₂) =>
      match promptLoop "Enter Email: "
          "Invalid email format! Please enter a valid email address (e.g., user@domain.com)."
          isValidEmail finalNewline cin with
      | none => none
      | some (email, cin, out₃) =>
        let (address, cin) := getline cin
        match promptLoop "Enter Birthday (DD/MM/YYYY) (optional - press Enter to skip): "
            "Invalid date format! Please use DD/MM/YYYY format or leave empty."
            (fun s => !(!s.isEmpty && !isValidDate currentYear s)) finalNewline cin with
        | none => none
        | some (birthday, cin, out₄) =>
          let (notes, cin) := getline cin
          match promptLoop "Enter Category (Personal/Work/Family/Other): "
              "Invalid category! Please choose from: Personal, Work, Family, or Other."
              (fun s => s.isEmpty || isValidCategory s) finalNewline cin with
          | none => none
          | some (category, cin, out₅) =>
            let category := if category.isEmpty then str "Personal" else category
            let contact : Contact :=
              { name := name, phone := phone, email := email, address := address,
                birthday := birthday, notes := notes, category := category }
            let m₁ : ContactManager :=
              { m with
                contacts := m.contacts ++ [contact]
                console := m.console ++ out₁ ++ out₂ ++ out₃ ++
                  [.text "Enter Address (optional): "] ++ out₄ ++
                  [.text "Enter Notes (optional): "] ++ out₅ ++
                  [.text "Contact added successfully!"] }
            some (saveToFile m₁, cin)

/-- `std::string::find(term)` from position `pos` of the original string, the
argument being what is left from there on; `none` is `npos`. -/
def find (term : Text) : Text → Nat → Option Nat
  | [], pos => if term.isEmpty then some pos else none
  | c :: cs, pos => if term.isPrefixOf (c :: cs) then some pos else find term cs (pos + 1)

/-- The table header `searchContact` prints before the first match. -/
def searchHeader : List Output :=
  [.text "\nSearch Results:", .text (String.mk (List.replicate 75 '-')),
    .text "Name                          Phone          Email                         ",
    .text (String.mk (List.replicate 75 '-'))]

/-- The loop of `searchContact`: the output, and the flag `found`. -/
def searchLoop (searchTerm : Text) : List Contact → Bool → List Output × Bool
  | [], found => ([], found)
  | c :: cs, found =>
    if (find searchTerm c.name 0).isSome then
      let r := searchLoop searchTerm cs true
      ((if !found then searchHeader else []) ++ .display c :: r.1, r.2)
    else searchLoop searchTerm cs found

/-- `ContactManager::searchContact`, after its `cin.ignore`. -/
def searchContact (m : ContactManager) (cin : Input) : ContactManager × Input :=
  if m.contacts.isEmpty then (m.print [.text "No contacts to search!"], cin)
  else
    let (searchTerm, cin) := getline cin
    let r := searchLoop searchTerm m.contacts false
    let out := [.text "Enter name to search: "] ++ r.1 ++
      (if !r.2 then [.text "No matching contacts found!"] else [])
    (m.print out, cin)

/-- The loop of `editContact`: the contacts after the edit of the first one
named `searchName`, the input left and the output; `none` when the loop ends
without a match. -/
def editLoop (searchName : Text) (cin : Input) : List Contact → Option (List Contact × Input)
  | [] => none
  | contact :: cs =>
    if contact.name = searchName then
      let (name, cin) := getline cin
      let contact := if !name.isEmpty then { contact with name := name } else contact
      let (phone, cin) := getline cin
      let contact := if !phone.isEmpty then { contact with phone := phone } else contact
      let (email, cin) := getline cin
      let contact := if !email.isEmpty then { contact with email := email } else contact
      some (contact :: cs, cin)
    else (editLoop searchName cin cs).map (fun r => (contact :: r.1, r.2))

/-- `ContactManager::editContact`, after its `cin.ignore`. -/
def editContact (m : ContactManager) (cin : Input) : ContactManager × Input :=
  if m.contacts.isEmpty then (m.print [.text "No contacts to edit!"], cin)
  else
    let (searchName, cin) := getline cin
    let m := m.print [.text "Enter name of contact to edit: "]
    match editLoop searchName cin m.contacts with
    | some (contacts, cin) =>
      let m₁ := { m with contacts := contacts }
      (saveToFile (m₁.print [.text "Enter new name (press enter to keep current): ",
        .text "Enter new phone (press enter to keep current): ",
        .text "Enter new email (press enter to keep current): ",
        .text "Contact updated successfully!"]), cin)
    | none => (m.print [.text "Contact not found!"], cin)

/-- The loop of `deleteContact`: the position of the iterator `it` at the first
contact named `searchName`, counted from `pos`; `none` when `it` reaches
`contacts.end()`. -/
def deleteLoop (searchName : Text) : List Contact → Nat → Option Nat
  | [], _ => none
  | c :: cs, pos => if c.name = searchName then some pos else deleteLoop searchName cs (pos + 1)

/-- `ContactManager::deleteContact`, after its `cin.ignore`. -/
def deleteContact (m : ContactManager) (cin : Input) : ContactManager × Input :=
  if m.contacts.isEmpty then (m.print [.text "No contacts to delete!"], cin)
  else
    let (searchName, cin) := getline cin
    let m := m.print [.text "Enter name of contact to delete: "]
    match deleteLoop searchName m.contacts 0 with
    | some it =>
      let (confirm, cin) := getline cin
      let m := m.print [.text "Are you sure you want to delete this contact? (y/n): "]
      if confirm = str "y" ∨ confirm = str "Y" then
        let m₁ := { m with contacts := m.contacts.eraseIdx it }
        (saveToFile (m₁.print [.text "Contact deleted successfully!"]), cin)
      else (m.print [.text "Deletion cancelled."], cin)
    | none => (m.print [.text "Contact not found!"], cin)

/-- `char_traits<char>::compare(s, t, n)`, that is `memcmp`: the sign of the
first difference among the first `n` bytes, compared as unsigned values. -/
def traitsCompare : Text → Text → Nat → Int
  | a :: as, b :: bs, n + 1 =>
    if a < b then -1 else if b < a then 1 else traitsCompare as bs n
  | _, _, _ => 0

/-- `std::string::compare`: the bytes of the common length decide; if they
agree, the difference of the lengths does (clamped to `int`). -/
def compare (s t : Text) : Int :=
  let r := traitsCompare s t (min s.length t.length)
  if r ≠ 0 then r
  else max (-2147483648) (min 2147483647 ((s.length : Int) - (t.length : Int)))

/-- The comparison `a.getName() < b.getName()` of `sortContacts`. -/
def nameLess (a b : Contact) : Bool := decide (compare a.name b.name < 0)

/-- `ContactManager::sortContacts`. The algorithm behind `std::sort` belongs to
the C++ library, not to the program: it is the parameter `stdSort`. -/
def sortContacts (stdSort : (Contact → Contact → Bool) → List Contact → List Contact)
    (m : ContactManager) : ContactManager :=
  let m₁ := { m with contacts := stdSort nameLess m.contacts }
  saveToFile (m₁.print [.text "Contacts sorted by name!"])

/-- A contact that has the given name and, for the rest, fixed valid fields. -/
def contactNamed (name : String) : Contact :=
  { name := str name, phone := str "+12345678", email := str "a@b.co", address := [],
    birthday := [], notes := [], category := str "Personal" }

/-- A manager whose store holds contacts named Alice, bob and Alicia. -/
def aliceBobAlicia : ContactManager :=
  { contacts := [contactNamed "Alice", contactNamed "bob", contactNamed "Alicia"],
    files := fun _ => none, console := [] }

/-- What claim C9 says an edit makes of the matching contact: name, phone and
email are replaced by the inputs that are not empty, the other four fields are
kept. -/
def edited (c : Contact) (newName newPhone newEmail : Text) : Contact :=
  { name := if newName = [] then c.name else newName
    phone := if newPhone = [] then c.phone else newPhone
    email := if newEmail = [] then c.email else newEmail
    address := c.address
    birthday := c.birthday
    notes := c.notes
    category := c.category }

/-- The requirement `std::sort` puts on its comparison: a strict weak
ordering (irreflexive, transitive, and with transitive equivalence). -/
def StrictWeakOrdering (comp : Contact → Contact → Bool) : Prop :=
  (∀ a, comp a a = false) ∧
    (∀ a b c, comp a b = true → comp b c = true → comp a c = true) ∧
    ∀ a b c, comp a b = false → comp b a = false → comp b c = false → comp c b = false →
      comp a c = false ∧ comp c a = false

/-- What the C++ standard promises of `std::sort(first, last, comp)` for such a
comparison: the range is rearranged, and afterwards no element compares less
than an element before it. The order of equivalent elements is not
promised. -/
def StdSortContract (stdSort : (Contact → Contact → Bool) → List Contact → List Contact) :
    Prop :=
  ∀ comp l, StrictWeakOrdering comp →
    (stdSort comp l).Perm l ∧ (stdSort comp l).Pairwise (fun a b => comp b a = false)

/-- Byte-wise lexicographic order of two strings, as claim C7 names it. -/
def LexLess (s t : Text) : Prop := List.Lex (fun a b : Byte => a < b) s t

/-- Contacts with equal names are in the same relative order in `after` as in
`before`. -/
def StableByName (before after : List Contact) : Prop :=
  ∀ n : Text, after.filter (fun c => decide (c.name = n)) =
    before.filter (fun c => decide (c.name = n))

/-- A sorting procedure that meets the contract of `std::sort` and is not
stable: insertion sort of the reversed range. -/
def reversingSort (comp : Contact → Contact → Bool) (l : List Contact) : List Contact :=
  l.reverse.insertionSort (fun a b => comp b a = false)

/-- A manager whose store holds the two contacts named Zoë of the sample. -/
def twoZoes : ContactManager :=
  { contacts := sampleContacts.filter (fun c => decide (c.name = str "Zoë")),
    files := fun _ => none, console := [] }

/-- A manager with an empty store and no file on disk. -/
def emptyManager : ContactManager := { contacts := [], files := fun _ => none, console := [] }

/-- The invariant of claim C3: every stored phone and e-mail is valid. -/
def PhonesAndEmailsValid (contacts : List Contact) : Prop :=
  ∀ c ∈ contacts, isValidPhone c.phone = true ∧ isValidEmail c.email = true

/-! ## `std::sort` as GNU libstdc++ implements it (`bits/stl_algo.h`, `bits/stl_heap.h`)

A range is a list with positions counted from `begin()`; `none` is undefined
behaviour (an access outside the range). -/

/-- `std::iter_swap(i, j)`. -/
def iterSwap {α : Type} (v : List α) (i j : Nat) : Option (List α) :=
  match v[i]?, v[j]? with
  | some x, some y => some ((v.set i y).set j x)
  | _, _ => none

/-- `std::__move_median_to_first(result, a, b, c, comp)`. -/
def moveMedianToFirst {α : Type} (comp : α → α → Bool) (v : List α) (result a b c : Nat) :
    Option (List α) :=
  match v[a]?, v[b]?, v[c]? with
  | some xa, some xb, some xc =>
    if comp xa xb then
      if comp xb xc then iterSwap v result b
      else if comp xa xc then iterSwap v result c
      else iterSwap v result a
    else if comp xa xc then iterSwap v result a
    else if comp xb xc then iterSwap v result c
    else iterSwap v result b
  | _, _, _ => none

/-- `std::__unguarded_linear_insert(last, comp)` once `val = *last` is taken:
the hole is at `hole`, the element before it is compared with `val`. -/
def unguardedLinearInsert {α : Type} (comp : α → α → Bool) (val : α) :
    List α → Nat → Option (List α)
  | _, 0 => none
  | v, next + 1 =>
    match v[next]? with
    | none => none
    | some x =>
      if comp val x then unguardedLinearInsert comp val (v.set (next + 1) x) next
      else some (v.set (next + 1) val)

/-- The loop of `std::__insertion_sort(first, last, comp)`, from `i` on, with
`count = last - i` passes left. -/
def insertionLoop {α : Type} (comp : α → α → Bool) (first : Nat) :
    Nat → Nat → List α → Option (List α)
  | 0, _, v => some v
  | count + 1, i, v =>
    match v[i]?, v[first]? with
    | some val, some x =>
      if comp val x then
        insertionLoop comp first count (i + 1)
          (v.take first ++ val :: (v.drop first).take (i - first) ++ v.drop (i + 1))
      else
        match unguardedLinearInsert comp val v i with
        | none => none
        | some v₁ => insertionLoop comp first count (i + 1) v₁
    | _, _ => none

/-- `std::__insertion_sort(first, last, comp)`. -/
def insertionSort {α : Type} (comp : α → α → Bool) (v : List α) (first last : Nat) :
    Option (List α) :=
  if first = last then some v else insertionLoop comp first (last - (first + 1)) (first + 1) v

/-- `std::__unguarded_insertion_sort(first, last, comp)`, with
`count = last - first`. -/
def unguardedInsertionSort {α : Type} (comp : α → α → Bool) :
    Nat → Nat → List α → Option (List α)
  | 0, _, v => some v
  | count + 1, i, v =>
    match v[i]? with
    | none => none
    | some val =>
      match unguardedLinearInsert comp val v i with
      | none => none
      | some v₁ => unguardedInsertionSort comp count (i + 1) v₁

/-- `std::__final_insertion_sort(first, last, comp)`; `_S_threshold` is 16. -/
def finalInsertionSort {α : Type} (comp : α → α → Bool) (v : List α) (first last : Nat) :
    Option (List α) :=
  if last - first > 16 then
    match insertionSort comp v first (first + 16) with
    | none => none
    | some v₁ => unguardedInsertionSort comp (last - (first + 16)) (first + 16) v₁
  else insertionSort comp v first last

/-- The loop `while (comp(first, pivot)) ++first;`. -/
def scanUp {α : Type} (comp : α → α → Bool) (v : List α) (pivot : Nat) : Nat → Nat → Option Nat
  | 0, _ => none
  | fuel + 1, first =>
    match v[first]?, v[pivot]? with
    | some x, some p => if comp x p then scanUp comp v pivot fuel (first + 1) else some first
    | _, _ => none

/-- The loop `while (comp(pivot, last)) --last;`. -/
def scanDown {α : Type} (comp : α → α → Bool) (v : List α) (pivot : Nat) : Nat → Option Nat
  | 0 =>
    match v[0]?, v[pivot]? with
    | some x, some p => if comp p x then none else some 0
    | _, _ => none
  | l + 1 =>
    match v[l + 1]?, v[pivot]? with
    | some x, some p => if comp p x then scanDown comp v pivot l else some (l + 1)
    | _, _ => none

/-- `std::__unguarded_partition(first, last, pivot, comp)`: the range after
the swaps and the cut. -/
def unguardedPartition {α : Type} (comp : α → α → Bool) (pivot : Nat) :
    Nat → List α → Nat → Nat → Option (List α × Nat)
  | 0, _, _, _ => none
  | fuel + 1, v, first, last =>
    match scanUp comp v pivot (v.length + 1) first with
    | none => none
    | some first₁ =>
      match last with
      | 0 => none
      | l + 1 =>
        match scanDown comp v pivot l with
        | none => none
        | some last₁ =>
          if !(decide (first₁ < last₁)) then some (v, first₁)
          else
            match iterSwap v first₁ last₁ with
            | none => none
            | some v₁ => unguardedPartition comp pivot fuel v₁ (first₁ + 1) last₁

/-- `std::__unguarded_partition_pivot(first, last, comp)`. -/
def unguardedPartitionPivot {α : Type} (comp : α → α → Bool) (v : List α) (first last : Nat) :
    Option (List α × Nat) :=
  let mid := first + (last - first) / 2
  match moveMedianToFirst comp v first (first + 1) mid (last - 1) with
  | none => none
  | some v₁ => unguardedPartition comp first (v.length + 1) v₁ (first + 1) last

/-- The loop of `std::__push_heap(first, holeIndex, topIndex, value, comp)`. -/
def pushHeap {α : Type} (comp : α → α → Bool) (first topIndex : Nat) (value : α) :
    Nat → List α → Nat → Option (List α)
  | 0, _, _ => none
  | fuel + 1, v, holeIndex =>
    let parent := (holeIndex - 1) / 2
    if holeIndex > topIndex then
      match v[first + parent]? with
      | none => none
      | some x =>
        if comp x value then pushHeap comp first topIndex value fuel (v.set (first + holeIndex) x) parent
        else some (v.set (first + holeIndex) value)
    else some (v.set (first + holeIndex) value)

/-- The first loop of `std::__adjust_heap`: the range, `holeIndex` and
`secondChild` when it ends. -/
def siftDown {α : Type} (comp : α → α → Bool) (first len : Nat) :
    Nat → List α → Nat → Nat → Option (List α × Nat × Nat)
  | 0, _, _, _ => none
  | fuel + 1, v, holeIndex, secondChild =>
    if secondChild < (len - 1) / 2 then
      let second := 2 * (secondChild + 1)
      match v[first + second]?, v[first + (second - 1)]? with
      | some x, some y =>
        let second := if comp x y then second - 1 else second
        match v[first + second]? with
        | none => none
        | some z => siftDown comp first len fuel (v.set (first + holeIndex) z) second second
      | _, _ => none
    else some (v, holeIndex, secondChild)

/-- `std::__adjust_heap(first, holeIndex, len, value, comp)`. -/
def adjustHeap {α : Type} (comp : α → α → Bool) (v : List α) (first holeIndex len : Nat)
    (value : α) : Option (List α) :=
  match siftDown comp first len (len + 1) v holeIndex holeIndex with
  | none => none
  | some (v₁, hole, secondChild) =>
    if len % 2 = 0 ∧ 2 ≤ len ∧ secondChild = (len - 2) / 2 then
      let second := 2 * (secondChild + 1)
      match v₁[first + (second - 1)]? with
      | none => none
      | some x =>
        pushHeap comp first holeIndex value (len + 1) (v₁.set (first + hole) x) (second - 1)
    else pushHeap comp first holeIndex value (len + 1) v₁ hole

/-- `std::__pop_heap(first, last, result, comp)`. -/
def popHeap {α : Type} (comp : α → α → Bool) (v : List α) (first last result : Nat) :
    Option (List α) :=
  match v[result]?, v[first]? with
  | some value, some top => adjustHeap comp (v.set result top) first 0 (last - first) value
  | _, _ => none

/-- The loop of `std::__make_heap(first, last, comp)`, from `parent` down. -/
def makeHeapLoop {α : Type} (comp : α → α → Bool) (first len : Nat) :
    Nat → List α → Option (List α)
  | 0, v =>
    match v[first]? with
    | none => none
    | some value => adjustHeap comp v first 0 len value
  | p + 1, v =>
    match v[first + (p + 1)]? with
    | none => none
    | some value =>
      match adjustHeap comp v first (p + 1) len value with
      | none => none
      | some v₁ => makeHeapLoop comp first len p v₁

/-- `std::__make_heap(first, last, comp)`. -/
def makeHeap {α : Type} (comp : α → α → Bool) (v : List α) (first last : Nat) :
    Option (List α) :=
  if last - first < 2 then some v
  else makeHeapLoop comp first (last - first) ((last - first - 2) / 2) v

/-- The loop of `std::__heap_select(first, middle, last, comp)`, with
`count = last - i`. -/
def heapSelectLoop {α : Type} (comp : α → α → Bool) (first middle : Nat) :
    Nat → Nat → List α → Option (List α)
  | 0, _, v => some v
  | count + 1, i, v =>
    match v[i]?, v[first]? with
    | some x, some top =>
      if comp x top then
        match popHeap comp v first middle i with
        | none => none
        | some v₁ => heapSelectLoop comp first middle count (i + 1) v₁
      else heapSelectLoop comp first middle count (i + 1) v
    | _, _ => none

/-- `std::__sort_heap(first, last, comp)`, with `count = last - first`. -/
def sortHeap {α : Type} (comp : α → α → Bool) (first : Nat) : Nat → List α → Option (List α)
  | 0, v => some v
  | count + 1, v =>
    if count + 1 > 1 then
      match popHeap comp v first (first + count) (first + count) with
      | none => none
      | some v₁ => sortHeap comp first count v₁
    else some v

/-- `std::__partial_sort(first, middle, last, comp)`. -/
def partialSort {α : Type} (comp : α → α → Bool) (v : List α) (first middle last : Nat) :
    Option (List α) :=
  match makeHeap comp v first middle with
  | none => none
  | some v₁ =>
    match heapSelectLoop comp first middle (last - middle) middle v₁ with
    | none => none
    | some v₂ => sortHeap comp first (middle - first) v₂

/-- `std::__introsort_loop(first, last, depth_limit, comp)`: every pass of the
loop, and every recursive call, lowers `depth_limit`. -/
def introsortLoop {α : Type} (comp : α → α → Bool) :
    Nat → List α → Nat → Nat → Option (List α)
  | 0, v, first, last =>
    if last - first > 16 then partialSort comp v first last last else some v
  | d + 1, v, first, last =>
    if last - first > 16 then
      match unguardedPartitionPivot comp v first last with
      | none => none
      | some (v₁, cut) =>
        match introsortLoop comp d v₁ cut last with
        | none => none
        | some v₂ => introsortLoop comp d v₂ first cut
    else some v

/-- The loop behind `std::__lg(n)`, the binary logarithm rounded down. -/
def lgLoop : Nat → Nat → Nat
  | 0, _ => 0
  | fuel + 1, n => if n ≥ 2 then lgLoop fuel (n / 2) + 1 else 0

/-- `std::__sort(first, last, comp)` over the whole of `v`. -/
def gnuSort {α : Type} (comp : α → α → Bool) (v : List α) : Option (List α) :=
  if v.length = 0 then some v
  else
    match introsortLoop comp (lgLoop v.length v.length * 2) v 0 v.length with
    | none => none
    | some v₁ => finalInsertionSort comp v₁ 0 v.length

/-- `std::sort` as a total function: the range is left as it is where the
library's behaviour is undefined. -/
def gnuStdSort (comp : Contact → Contact → Bool) (l : List Contact) : List Contact :=
  (gnuSort comp l).getD l

/-- A contact that has the given name and phone and, for the rest, fixed valid
fields. -/
def contactWith (name phone : String) : Contact :=
  { name := str name, phone := str phone, email := str "a@b.co", address := [],
    birthday := [], notes := [], category := str "Personal" }

/-- A manager whose store holds seventeen contacts, already in ascending order
of name; the first two are both named Ann. -/
def seventeen : ContactManager :=
  { contacts :=
      [contactWith "Ann" "+10000001", contactWith "Ann" "+10000002",
        contactWith "Bob" "+10000003", contactWith "Cat" "+10000004",
        contactWith "Dan" "+10000005", contactWith "Eve" "+10000006",
        contactWith "Fay" "+10000007", contactWith "Gus" "+10000008",
        contactWith "Hal" "+10000009", contactWith "Ian" "+10000010",
        contactWith "Jan" "+10000011", contactWith "Kim" "+10000012",
        contactWith "Lee" "+10000013", contactWith "Max" "+10000014",
        contactWith "Ned" "+10000015", contactWith "Oda" "+10000016",
        contactWith "Pat" "+10000017"]
    files := fun _ => none
    console := [] }

/-! ## `regex_match` as GNU libstdc++ runs it (`bits/regex_executor.tcc`)

`regex_match` walks the automaton compiled from the pattern with the recursive
procedure `_Executor::_M_dfs` (depth-first mode). The model counts the process
stack in activations of `_M_dfs`: `stack` is the number of nested activations
(each with the handler it calls) that still fit. Capture positions do not
influence the result of `regex_match` and are left out. -/

/-- A state of the automaton (`_State`), for the opcodes that occur in the
automaton of the e-mail pattern. -/
inductive NfaState where
  /-- `_S_opcode_repeat`: `alt` matches once more, `next` leaves the loop;
  `neg` marks a non-greedy quantifier. -/
  | rep (next alt : Nat) (neg : Bool) : NfaState
  /-- `_S_opcode_subexpr_begin`. -/
  | subexprBegin (next : Nat) : NfaState
  /-- `_S_opcode_subexpr_end`. -/
  | subexprEnd (next : Nat) : NfaState
  /-- `_S_opcode_match`: one character accepted by `p`. -/
  | char (p : Byte → Bool) (next : Nat) : NfaState
  /-- `_S_opcode_accept`. -/
  | accept : NfaState
  /-- `_S_opcode_dummy`, a state the compiler left unused. -/
  | dummy : NfaState

/-- The members of `_Executor` that decide the result: `_M_current` (as an
offset from `_M_begin`), `_M_has_sol` and `_M_rep_count` (per state, the
position and the number of visits there). -/
structure Executor where
  current : Nat
  hasSol : Bool
  repCount : List (Nat × Nat)

/-- How a run of the matcher ends. -/
inductive Outcome (α : Type) where
  /-- The call returns. -/
  | returned (a : α) : Outcome α
  /-- The stack has no room for another activation: the process is killed
  (`SIGSEGV`). No exception is thrown, so no handler runs. -/
  | stackOverflow : Outcome α
  /-- A state outside the automaton is entered (undefined behaviour). -/
  | undefined : Outcome α

/-- `_Executor::_M_rep_once_more(match_mode, i)`; `run` is
`_M_dfs(match_mode, state._M_alt)`. -/
def repOnceMore (run : Executor → Outcome Executor) (i : Nat) (e : Executor) :
    Outcome Executor :=
  let repCount := e.repCount.getD i (0, 0)
  if repCount.2 = 0 ∨ repCount.1 ≠ e.current then
    match run { e with repCount := e.repCount.set i (e.current, 1) } with
    | .returned e₁ => .returned { e₁ with repCount := e₁.repCount.set i repCount }
    | .stackOverflow => .stackOverflow
    | .undefined => .undefined
  else if repCount.2 < 2 then
    match run { e with repCount := e.repCount.set i (repCount.1, repCount.2 + 1) } with
    | .returned e₁ =>
      .returned
        { e₁ with
          repCount := e₁.repCount.set i
            ((e₁.repCount.getD i (0, 0)).1, (e₁.repCount.getD i (0, 0)).2 - 1) }
    | .stackOverflow => .stackOverflow
    | .undefined => .undefined
  else .returned e

/-- `_Executor::_M_dfs(match_mode, i)` in depth-first mode with
`match_mode == _Exact`, together with the handlers it dispatches to
(`_M_handle_repeat`, `_M_handle_subexpr_begin`, `_M_handle_subexpr_end`,
`_M_handle_match`, `_M_handle_accept`). Every activation takes one unit of
`stack`. -/
def dfs (nfa : List NfaState) (input : Text) : Nat → Nat → Executor → Outcome Executor
  | 0, _, _ => .stackOverflow
  | stack + 1, i, e =>
    match nfa[i]? with
    | none => .undefined
    | some (.rep next alt neg) =>
      if !neg then
        match repOnceMore (dfs nfa input stack alt) i e with
        | .returned e₁ => if !e₁.hasSol then dfs nfa input stack next e₁ else .returned e₁
        | .stackOverflow => .stackOverflow
        | .undefined => .undefined
      else
        match dfs nfa input stack next e with
        | .returned e₁ =>
          if !e₁.hasSol then repOnceMore (dfs nfa input stack alt) i e₁ else .returned e₁
        | .stackOverflow => .stackOverflow
        | .undefined => .undefined
    | some (.subexprBegin next) => dfs nfa input stack next e
    | some (.subexprEnd next) => dfs nfa input stack next e
    | some (.char p next) =>
      match input[e.current]? with
      | none => .returned e
      | some c =>
        if p c then
          match dfs nfa input stack next { e with current := e.current + 1 } with
          | .returned e₁ => .returned { e₁ with current := e₁.current - 1 }
          | .stackOverflow => .stackOverflow
          | .undefined => .undefined
        else .returned e
    | some .accept => .returned { e with hasSol := decide (e.current = input.length) }
    | some .dummy => .returned e

/-- `regex_match(s, re)` for the automaton `nfa` of `re`, whose start state is
0: `_Executor::_M_match`, that is `_M_dfs` from the start state, the answer
being `_M_has_sol`. -/
def regexMatchOnStack (nfa : List NfaState) (stack : Nat) (s : Text) : Outcome Bool :=
  match dfs nfa s stack 0
      { current := 0, hasSol := false, repCount := List.replicate nfa.length (0, 0) } with
  | .returned e => .returned e.hasSol
  | .stackOverflow => .stackOverflow
  | .undefined => .undefined

/-- The automaton libstdc++ compiles
`[a-zA-Z0-9._%+-]+@[a-zA-Z0-9.-]+\.[a-zA-Z]{2,}` to: 16 states, start state 0;
states 7, 8 and 13 are left over by the compiler and cannot be reached. -/
def emailNfa : List NfaState :=
  [.subexprBegin 1,
   .char emailLocalSet 2,
   .rep 3 1 false,
   .char (lit '@') 4,
   .char emailDomainSet 5,
   .rep 6 4 false,
   .char (lit '.') 9,
   .dummy,
   .dummy,
   .char letterSet 10,
   .char letterSet 12,
   .char letterSet 12,
   .rep 14 11 false,
   .dummy,
   .subexprEnd 15,
   .accept]

/-- `Contact::isValidEmail` on a stack with room for `stack` nested
activations of the matcher. The handler of `isValidEmail` catches
`regex_error` only, so a stack overflow ends the process. -/
def isValidEmailOnStack (stack : Nat) (email : Text) : Outcome Bool :=
  regexMatchOnStack emailNfa stack email

/-- One character accepted by `p`, then a rest accepted by `rest`: what a
`char` state of the automaton accepts. -/
def acceptsChar (p : Byte → Bool) (rest : Text → Bool) : Text → Bool
  | [] => false
  | c :: cs => p c && rest cs

/-- What state 12 of `emailNfa` accepts: letters up to the end. -/
def accepts12 (s : Text) : Bool := s.all letterSet

/-- What state 9 of `emailNfa` accepts: two letters, then state 12. -/
def accepts9 : Text → Bool := acceptsChar letterSet (acceptsChar letterSet accepts12)

/-- What state 5 of `emailNfa` accepts: more of the domain, or the dot and the
final label. -/
def accepts5 : Text → Bool
  | [] => false
  | c :: cs => (emailDomainSet c && accepts5 cs) || (lit '.' c && accepts9 cs)

/-- What state 2 of `emailNfa` accepts: more of the local part, or the `@` and
the domain. -/
def accepts2 : Text → Bool
  | [] => false
  | c :: cs =>
    (emailLocalSet c && accepts2 cs) || (lit '@' c && acceptsChar emailDomainSet accepts5 cs)

/-- The entry of `_M_rep_count` for state `k` lets the loop of that state run
at every later position. -/
def RepFresh (e : Executor) (k : Nat) : Prop :=
  (e.repCount.getD k (0, 0)).2 = 0 ∨ (e.repCount.getD k (0, 0)).1 ≤ e.current

/-- The entry of `_M_rep_count` for state `k` lets the loop of that state run
at the current position. -/
def RepReady (e : Executor) (k : Nat) : Prop :=
  (e.repCount.getD k (0, 0)).2 = 0 ∨ (e.repCount.getD k (0, 0)).1 < e.current

/-! # Theorems -/

/-! ## The regular-expression matcher -/

theorem mem_splits {s a b : Text} : (a, b) ∈ splits s ↔ a ++ b = s := by
  induction s generalizing a b with
  | nil => simp [splits]
  | cons c cs ih =>
    simp only [splits, List.mem_cons, List.mem_map, Prod.mk.injEq, Prod.exists]
    constructor
    · rintro (⟨rfl, rfl⟩ | ⟨a', b', h, rfl, rfl⟩)
      · rfl
      · simp [ih.mp h]
    · intro h
      cases a with
      | nil => left; exact ⟨rfl, by simpa using h⟩
      | cons x xs =>
        right
        simp only [List.cons_append, List.cons.injEq] at h
        exact ⟨xs, b, ih.mpr h.2, by simp [h.1], rfl⟩

theorem any_splits (s : Text) (f : Text × Text → Bool) :
    (splits s).any f = true ↔ ∃ a b, s = a ++ b ∧ f (a, b) = true := by
  simp only [List.any_eq_true, Prod.exists, mem_splits]
  constructor
  · rintro ⟨a, b, h, hf⟩; exact ⟨a, b, h.symm, hf⟩
  · rintro ⟨a, b, h, hf⟩; exact ⟨a, b, h.symm, hf⟩

theorem matches_set {p : Byte → Bool} {pre s post : Text} :
    (Regex.set p).matches pre s post = true ↔ ∃ c, s = [c] ∧ p c = true := by
  match s with
  | [] => simp [Regex.matches]
  | [c] => simp [Regex.matches]
  | _ :: _ :: _ => simp [Regex.matches]

theorem matches_cat {a b : Regex} {pre s post : Text} :
    (Regex.cat a b).matches pre s post = true ↔
      ∃ s₁ s₂, s = s₁ ++ s₂ ∧ a.matches pre s₁ (s₂ ++ post) = true ∧
        b.matches (pre ++ s₁) s₂ post = true := by
  show (splits s).any (fun p =>
      a.matches pre p.1 (p.2 ++ post) && b.matches (pre ++ p.1) p.2 post) = true ↔ _
  simp only [any_splits, Bool.and_eq_true]

theorem matches_bol {pre s post : Text} :
    Regex.bol.matches pre s post = true ↔ s = [] ∧ pre = [] := by
  simp [Regex.matches]

theorem matches_eol {pre s post : Text} :
    Regex.eol.matches pre s post = true ↔ s = [] ∧ post = [] := by
  simp [Regex.matches]

theorem repUpTo_set {p : Byte → Bool} {e : Nat} {pre s post : Text} :
    repUpTo (Regex.set p).matches e pre s post = true ↔
      s.length ≤ e ∧ ∀ c ∈ s, p c = true := by
  induction e generalizing pre s with
  | zero => cases s <;> simp [repUpTo]
  | succ e ih =>
    cases s with
    | nil => simp [repUpTo]
    | cons c cs =>
      simp only [repUpTo, List.isEmpty_cons, Bool.false_or, any_splits, Bool.and_eq_true,
        matches_set, ih, List.length_cons, Nat.add_le_add_iff_right, List.mem_cons, forall_eq_or_imp]
      constructor
      · rintro ⟨a, b, h, ⟨x, rfl, hx⟩, hl, hb⟩
        simp only [List.singleton_append, List.cons.injEq] at h
        obtain ⟨rfl, rfl⟩ := h
        exact ⟨hl, hx, hb⟩
      · rintro ⟨hl, hx, hb⟩
        exact ⟨[c], cs, rfl, ⟨c, rfl, hx⟩, hl, hb⟩

theorem repFrom_set {p : Byte → Bool} {l e : Nat} {pre s post : Text} :
    repFrom (Regex.set p).matches l e pre s post = true ↔
      l ≤ s.length ∧ s.length ≤ l + e ∧ ∀ c ∈ s, p c = true := by
  induction l generalizing pre s with
  | zero => simp [repFrom, repUpTo_set]
  | succ l ih =>
    cases s with
    | nil => simp [repFrom, splits, Regex.matches]
    | cons c cs =>
      simp only [repFrom, any_splits, Bool.and_eq_true, matches_set, ih, List.length_cons,
        Nat.add_le_add_iff_right, List.mem_cons, forall_eq_or_imp]
      constructor
      · rintro ⟨a, b, h, ⟨x, rfl, hx⟩, hl, hu, hb⟩
        simp only [List.singleton_append, List.cons.injEq] at h
        obtain ⟨rfl, rfl⟩ := h
        exact ⟨hl, by omega, hx, hb⟩
      · rintro ⟨hl, hu, hx, hb⟩
        exact ⟨[c], cs, rfl, ⟨c, rfl, hx⟩, hl, by omega, hb⟩

theorem matches_rep_set {p : Byte → Bool} {lo hi : Nat} {pre s post : Text} (h : lo ≤ hi) :
    (Regex.rep (.set p) lo (some hi)).matches pre s post = true ↔
      lo ≤ s.length ∧ s.length ≤ hi ∧ ∀ c ∈ s, p c = true := by
  show repFrom (Regex.set p).matches lo (hi - lo) pre s post = true ↔ _
  rw [repFrom_set]
  constructor
  · rintro ⟨h1, h2, h3⟩; exact ⟨h1, by omega, h3⟩
  · rintro ⟨h1, h2, h3⟩; exact ⟨h1, by omega, h3⟩

theorem matches_rep_set_unbounded {p : Byte → Bool} {lo : Nat} {pre s post : Text} :
    (Regex.rep (.set p) lo none).matches pre s post = true ↔
      lo ≤ s.length ∧ ∀ c ∈ s, p c = true := by
  show repFrom (Regex.set p).matches lo s.length pre s post = true ↔ _
  rw [repFrom_set]
  constructor
  · rintro ⟨h1, _, h3⟩; exact ⟨h1, h3⟩
  · rintro ⟨h1, h3⟩; exact ⟨h1, by omega, h3⟩

/-! ## `isValidPhone` -/

theorem range_iff {lo hi : Char} {b : Byte} : range lo hi b = true ↔ ch lo ≤ b ∧ b ≤ ch hi := by
  simp [range]

theorem lit_iff {c : Char} {b : Byte} : lit c b = true ↔ b = ch c := by
  simp [lit]

theorem matches_opt_set {p : Byte → Bool} {pre s post : Text} :
    (Regex.rep (.set p) 0 (some 1)).matches pre s post = true ↔
      s = [] ∨ ∃ c, s = [c] ∧ p c = true := by
  rw [matches_rep_set (by omega)]
  match s with
  | [] => simp
  | [c] => simp
  | _ :: _ :: _ => simp

theorem isValidPhone_iff (t : Text) : isValidPhone t = true ↔ PhoneShape t := by
  unfold isValidPhone regex_match phonePattern PhoneShape
  simp only [matches_cat, matches_bol, matches_eol, matches_opt_set, matches_set,
    matches_rep_set (show 7 ≤ 14 by omega), range_iff, lit_iff, digit]
  constructor
  · rintro ⟨s₁, s₂, rfl, ⟨rfl, -⟩, p, s₃, rfl, hp, _, s₄, rfl, ⟨d, rfl, hd⟩, ds, s₅, rfl,
      ⟨h7, h14, hds⟩, rfl, -⟩
    refine ⟨p, d, ds, by simp, ?_, hd, ⟨h7, h14⟩, hds⟩
    rcases hp with rfl | ⟨c, rfl, rfl⟩
    · exact Or.inl rfl
    · exact Or.inr rfl
  · rintro ⟨p, d, ds, rfl, hp, hd, ⟨h7, h14⟩, hds⟩
    refine ⟨[], p ++ d :: ds, rfl, ⟨rfl, trivial⟩, p, d :: ds, rfl, ?_, [d], ds, rfl,
      ⟨d, rfl, hd⟩, ds, [], by simp, ⟨h7, h14, hds⟩, rfl, trivial⟩
    rcases hp with rfl | rfl
    · exact Or.inl rfl
    · exact Or.inr ⟨_, rfl, rfl⟩

/-- C4: `isValidPhone` accepts exactly an optional leading `+`, one digit `1`-`9`
and 7 to 14 further digits; `+1234567` and `0123456789` are rejected,
`+123456789012345` is accepted. -/
theorem isValidPhone_spec :
    (∀ t : Text, isValidPhone t = true ↔ PhoneShape t) ∧
      isValidPhone (str "+1234567") = false ∧
      isValidPhone (str "+123456789012345") = true ∧
      isValidPhone (str "0123456789") = false :=
  ⟨isValidPhone_iff, by decide, by decide, by decide⟩

/-! ## `isValidEmail` -/

theorem letterSet_iff {c : Byte} : letterSet c = true ↔ IsLetter c := by
  simp [letterSet, IsLetter, range_iff]

theorem emailLocalSet_iff {c : Byte} : emailLocalSet c = true ↔ IsLocalChar c := by
  simp [emailLocalSet, IsLocalChar, IsLetter, IsDigit, range_iff, lit_iff, or_assoc]

theorem emailDomainSet_iff {c : Byte} : emailDomainSet c = true ↔ IsDomainChar c := by
  simp [emailDomainSet, IsDomainChar, IsLetter, IsDigit, range_iff, lit_iff, or_assoc]

theorem not_isLetter_dot : ¬ IsLetter (ch '.') := by
  unfold IsLetter; decide

theorem isValidEmail_iff (t : Text) : isValidEmail t = true ↔ EmailShape t := by
  unfold isValidEmail regex_match emailPattern EmailShape
  simp only [matches_cat, matches_set, matches_rep_set_unbounded, lit_iff, letterSet_iff,
    emailLocalSet_iff, emailDomainSet_iff]
  constructor
  · rintro ⟨loc, s₁, rfl, ⟨hl, hloc⟩, a, s₂, rfl, ⟨c, rfl, rfl⟩, dom, s₃, rfl, ⟨hd, hdom⟩,
      b, tld, rfl, ⟨c, rfl, rfl⟩, ht, htld⟩
    refine ⟨loc, dom, tld, by simp, ⟨?_, hloc⟩, ⟨?_, hdom⟩, ⟨ht, htld⟩, ?_⟩
    · rintro rfl; simp at hl
    · rintro rfl; simp at hd
    · intro h; exact not_isLetter_dot (htld _ h)
  · rintro ⟨loc, dom, tld, rfl, ⟨hl, hloc⟩, ⟨hd, hdom⟩, ⟨ht, htld⟩, -⟩
    refine ⟨loc, _, rfl, ⟨?_, hloc⟩, [ch '@'], _, rfl, ⟨_, rfl, rfl⟩, dom, _, rfl, ⟨?_, hdom⟩,
      [ch '.'], tld, rfl, ⟨_, rfl, rfl⟩, ht, htld⟩
    · cases loc with
      | nil => exact absurd rfl hl
      | cons _ _ => simp
    · cases dom with
      | nil => exact absurd rfl hd
      | cons _ _ => simp

theorem matches_alt {a b : Regex} {pre s post : Text} :
    (Regex.alt a b).matches pre s post = true ↔
      a.matches pre s post = true ∨ b.matches pre s post = true := by
  simp [Regex.matches]

theorem matches_group {r : Regex} {pre s post : Text} :
    (Regex.group r).matches pre s post = r.matches pre s post := by
  simp [Regex.matches]

theorem matches_pair {p q : Byte → Bool} {pre s post : Text} :
    (Regex.cat (.set p) (.set q)).matches pre s post = true ↔
      ∃ a b, s = [a, b] ∧ p a = true ∧ q b = true := by
  simp only [matches_cat, matches_set]
  constructor
  · rintro ⟨_, _, rfl, ⟨a, rfl, ha⟩, b, rfl, hb⟩
    exact ⟨a, b, rfl, ha, hb⟩
  · rintro ⟨a, b, rfl, ha, hb⟩
    exact ⟨[a], [b], rfl, ⟨a, rfl, ha⟩, b, rfl, hb⟩

theorem regex_match_datePattern (t : Text) :
    regex_match t datePattern = true ↔
      ∃ d₁ d₂ m₁ m₂ ys, t = d₁ :: d₂ :: ch '/' :: m₁ :: m₂ :: ch '/' :: ys ∧
        ((d₁ = ch '0' ∧ ch '1' ≤ d₂ ∧ d₂ ≤ ch '9') ∨
          ((d₁ = ch '1' ∨ d₁ = ch '2') ∧ ch '0' ≤ d₂ ∧ d₂ ≤ ch '9') ∨
          (d₁ = ch '3' ∧ (d₂ = ch '0' ∨ d₂ = ch '1'))) ∧
        ((m₁ = ch '0' ∧ ch '1' ≤ m₂ ∧ m₂ ≤ ch '9') ∨
          (m₁ = ch '1' ∧ ch '0' ≤ m₂ ∧ m₂ ≤ ch '2')) ∧
        ys.length = 4 ∧ ∀ c ∈ ys, IsDigit c := by
  unfold regex_match datePattern
  simp only [matches_cat (a := .bol), matches_cat (a := .group _),
    matches_cat (a := .set (lit '/')), matches_group, matches_alt, matches_pair]
  simp only [matches_cat, matches_bol, matches_eol, matches_set,
    matches_rep_set (show 4 ≤ 4 by omega), range_iff, lit_iff, digit, Bool.or_eq_true, IsDigit]
  constructor
  · rintro ⟨_, _, rfl, ⟨rfl, -⟩, dd, _, rfl, hd, _, _, rfl, ⟨_, rfl, rfl⟩, mm, _, rfl, hm,
      _, _, rfl, ⟨_, rfl, rfl⟩, ys, _, rfl, ⟨h4, h4', hys⟩, rfl, -⟩
    have hd' : ∃ a b, dd = [a, b] ∧ ((a = ch '0' ∧ ch '1' ≤ b ∧ b ≤ ch '9') ∨
          ((a = ch '1' ∨ a = ch '2') ∧ ch '0' ≤ b ∧ b ≤ ch '9') ∨
          (a = ch '3' ∧ (b = ch '0' ∨ b = ch '1'))) := by
      rcases hd with ⟨a, b, rfl, h⟩ | ⟨a, b, rfl, h⟩ | ⟨a, b, rfl, h⟩
      · exact ⟨a, b, rfl, Or.inl h⟩
      · exact ⟨a, b, rfl, Or.inr (Or.inl h)⟩
      · exact ⟨a, b, rfl, Or.inr (Or.inr h)⟩
    have hm' : ∃ a b, mm = [a, b] ∧ ((a = ch '0' ∧ ch '1' ≤ b ∧ b ≤ ch '9') ∨
          (a = ch '1' ∧ ch '0' ≤ b ∧ b ≤ ch '2')) := by
      rcases hm with ⟨a, b, rfl, h⟩ | ⟨a, b, rfl, h⟩
      · exact ⟨a, b, rfl, Or.inl h⟩
      · exact ⟨a, b, rfl, Or.inr h⟩
    obtain ⟨d₁, d₂, rfl, hd₂⟩ := hd'
    obtain ⟨m₁, m₂, rfl, hm₂⟩ := hm'
    exact ⟨d₁, d₂, m₁, m₂, ys, by simp, hd₂, hm₂, by omega, hys⟩
  · rintro ⟨d₁, d₂, m₁, m₂, ys, rfl, hd, hm, h4, hys⟩
    refine ⟨[], _, rfl, ⟨rfl, trivial⟩, [d₁, d₂], _, rfl, ?_, [ch '/'], _, rfl, ⟨_, rfl, rfl⟩,
      [m₁, m₂], _, rfl, ?_, [ch '/'], _, rfl, ⟨_, rfl, rfl⟩, ys, [], by simp,
      ⟨by omega, by omega, hys⟩, rfl, trivial⟩
    · rcases hd with h | h | h
      · exact Or.inl ⟨_, _, rfl, h⟩
      · exact Or.inr (Or.inl ⟨_, _, rfl, h⟩)
      · exact Or.inr (Or.inr ⟨_, _, rfl, h⟩)
    · rcases hm with h | h
      · exact Or.inl ⟨_, _, rfl, h⟩
      · exact Or.inr ⟨_, _, rfl, h⟩

theorem ch_val (c : Char) (h : c.toNat < 256) : (ch c).val = c.toNat := by
  simp [ch, Fin.ofNat, Nat.mod_eq_of_lt h]

theorem isDigit_val {c : Byte} : IsDigit c ↔ 48 ≤ c.val ∧ c.val ≤ 57 := Iff.rfl

theorem eq_ch_iff {c : Byte} {x : Char} : c = ch x ↔ c.val = (ch x).val := Fin.ext_iff

theorem isDigit_facts {c : Byte} (h : IsDigit c) :
    isSpace c = false ∧ c ≠ ch '-' ∧ c ≠ ch '+' ∧ digit c = true := by
  rw [isDigit_val] at h
  have h1 : (ch ' ').val = 32 := rfl
  have h2 : (ch '-').val = 45 := rfl
  have h3 : (ch '+').val = 43 := rfl
  have h4 : (ch '0').val = 48 := rfl
  have h5 : (ch '9').val = 57 := rfl
  refine ⟨?_, ?_, ?_, ?_⟩
  · simp only [isSpace, Bool.or_eq_false_iff, beq_eq_false_iff_ne, ne_eq, eq_ch_iff, h1,
      Bool.and_eq_false_iff, decide_eq_false_iff_not]
    omega
  · rw [ne_eq, eq_ch_iff, h2]; omega
  · rw [ne_eq, eq_ch_iff, h3]; omega
  · simp only [digit, range, Bool.and_eq_true, decide_eq_true_eq, Fin.le_def, h4, h5]
    omega

/-- The decimal value `stoi` accumulates over a run of digits. -/
theorem stoi_digits {c : Byte} {cs : Text} (hd : ∀ x ∈ c :: cs, IsDigit x)
    (hr : (c :: cs).foldl (fun acc d => 10 * acc + (d.val - 48)) 0 ≤ 2147483647) :
    stoi (c :: cs) = some (((c :: cs).foldl (fun acc d => 10 * acc + (d.val - 48)) 0 : Nat) : Int) := by
  obtain ⟨hs, hm, hp, hdg⟩ := isDigit_facts (hd c (List.mem_cons_self _ _))
  have htw : (c :: cs).takeWhile digit = c :: cs := by
    rw [List.takeWhile_eq_self_iff]
    intro x hx
    exact (isDigit_facts (hd x hx)).2.2.2
  unfold stoi
  simp only [List.dropWhile_cons, hs, Bool.false_eq_true, if_false, hm, hp, htw,
    List.isEmpty_cons]
  rw [if_neg]
  omega

theorem daysInMonth_lookup (m y : Nat) (h1 : 1 ≤ m) (h12 : m ≤ 12) :
    (if (y : Int).tmod 4 = 0 ∧ ((y : Int).tmod 100 ≠ 0 ∨ (y : Int).tmod 400 = 0) then
        ([31, 28, 31, 30, 31, 30, 31, 31, 30, 31, 30, 31] : List Int).set 1 29
      else [31, 28, 31, 30, 31, 30, 31, 31, 30, 31, 30, 31])[((m : Int) - 1).toNat]? =
      some ((calendarDays m y : Nat) : Int) := by
  have e4 : (y : Int).tmod 4 = ((y % 4 : Nat) : Int) := (Int.ofNat_tmod y 4).symm
  have e100 : (y : Int).tmod 100 = ((y % 100 : Nat) : Int) := (Int.ofNat_tmod y 100).symm
  have e400 : (y : Int).tmod 400 = ((y % 400 : Nat) : Int) := (Int.ofNat_tmod y 400).symm
  have hc : ((y : Int).tmod 4 = 0 ∧ ((y : Int).tmod 100 ≠ 0 ∨ (y : Int).tmod 400 = 0)) ↔
      IsLeapYear y := by
    rw [e4, e100, e400]
    unfold IsLeapYear
    omega
  have hi : ((m : Int) - 1).toNat = m - 1 := by omega
  rw [hi]
  by_cases hl : IsLeapYear y
  · rw [if_pos (hc.mpr hl)]
    interval_cases m <;> simp [calendarDays, hl]
  · rw [if_neg (fun h => hl (hc.mp h))]
    interval_cases m <;> simp [calendarDays, hl]

theorem isValidDateBody_of_match (Y : Int) (t : Text)
    (h : regex_match t datePattern = true) :
    ∃ d₁ d₂ m₁ m₂ y₁ y₂ y₃ y₄ : Byte,
      t = [d₁, d₂, ch '/', m₁, m₂, ch '/', y₁, y₂, y₃, y₄] ∧
        (IsDigit d₁ ∧ IsDigit d₂ ∧ IsDigit m₁ ∧ IsDigit m₂ ∧
          IsDigit y₁ ∧ IsDigit y₂ ∧ IsDigit y₃ ∧ IsDigit y₄) ∧
        (1 ≤ 10 * digitValue d₁ + digitValue d₂ ∧
          1 ≤ 10 * digitValue m₁ + digitValue m₂ ∧ 10 * digitValue m₁ + digitValue m₂ ≤ 12) ∧
        isValidDateBody Y t =
          .ok (decide (((1000 * digitValue y₁ + 100 * digitValue y₂ + 10 * digitValue y₃ +
                digitValue y₄ : Nat) : Int) ≤ Y) &&
            decide (10 * digitValue d₁ + digitValue d₂ ≤
              calendarDays (10 * digitValue m₁ + digitValue m₂)
                (1000 * digitValue y₁ + 100 * digitValue y₂ + 10 * digitValue y₃ +
                  digitValue y₄))) := by
  have h' := h
  rw [regex_match_datePattern] at h'
  obtain ⟨d₁, d₂, m₁, m₂, ys, rfl, hd, hm, h4, hys⟩ := h'
  match ys, h4, hys with
  | [y₁, y₂, y₃, y₄], _, hys =>
    have hy₁ : IsDigit y₁ := hys _ (by simp)
    have hy₂ : IsDigit y₂ := hys _ (by simp)
    have hy₃ : IsDigit y₃ := hys _ (by simp)
    have hy₄ : IsDigit y₄ := hys _ (by simp)
    have c0 : (ch '0').val = 48 := rfl
    have c1 : (ch '1').val = 49 := rfl
    have c2 : (ch '2').val = 50 := rfl
    have c3 : (ch '3').val = 51 := rfl
    have c9 : (ch '9').val = 57 := rfl
    simp only [eq_ch_iff, Fin.le_def, c0, c1, c2, c3, c9] at hd hm
    have hd₁ : IsDigit d₁ := by rw [isDigit_val]; omega
    have hd₂ : IsDigit d₂ := by rw [isDigit_val]; omega
    have hm₁ : IsDigit m₁ := by rw [isDigit_val]; omega
    have hm₂ : IsDigit m₂ := by rw [isDigit_val]; omega
    refine ⟨d₁, d₂, m₁, m₂, y₁, y₂, y₃, y₄, rfl, ⟨hd₁, hd₂, hm₁, hm₂, hy₁, hy₂, hy₃, hy₄⟩,
      ⟨by unfold digitValue; omega, by unfold digitValue; omega, by unfold digitValue; omega⟩, ?_⟩
    rw [isDigit_val] at hy₁ hy₂ hy₃ hy₄
    have sd : stoi [d₁, d₂] = some ((10 * digitValue d₁ + digitValue d₂ : Nat) : Int) := by
      rw [stoi_digits (by simp [hd₁, hd₂]) (by simp only [List.foldl]; omega)]
      simp [List.foldl, digitValue]
    have sm : stoi [m₁, m₂] = some ((10 * digitValue m₁ + digitValue m₂ : Nat) : Int) := by
      rw [stoi_digits (by simp [hm₁, hm₂]) (by simp only [List.foldl]; omega)]
      simp [List.foldl, digitValue]
    have sy : stoi [y₁, y₂, y₃, y₄] =
        some ((1000 * digitValue y₁ + 100 * digitValue y₂ + 10 * digitValue y₃ +
          digitValue y₄ : Nat) : Int) := by
      rw [stoi_digits (by simp [isDigit_val, hy₁, hy₂, hy₃, hy₄])
        (by simp only [List.foldl]; omega)]
      simp only [List.foldl, digitValue, Option.some.injEq, Nat.cast_inj]
      omega
    have hm1 : 1 ≤ 10 * digitValue m₁ + digitValue m₂ := by unfold digitValue; omega
    have hm12 : 10 * digitValue m₁ + digitValue m₂ ≤ 12 := by unfold digitValue; omega
    unfold isValidDateBody
    rw [h]
    simp only [List.isEmpty_cons, Bool.false_eq_true, if_false, Bool.not_true, substr,
      List.length_cons, List.length_nil, List.drop, List.take, Option.some_bind, sd, sm, sy]
    simp only [show ¬ (0 > 0 + 1 + 1 + 1 + 1 + 1 + 1 + 1 + 1 + 1 + 1) by omega,
      show ¬ (3 > 0 + 1 + 1 + 1 + 1 + 1 + 1 + 1 + 1 + 1 + 1) by omega,
      show ¬ (6 > 0 + 1 + 1 + 1 + 1 + 1 + 1 + 1 + 1 + 1 + 1) by omega, if_false,
      Option.some_bind, sd, sm, sy, List.drop, List.take]
    generalize 1000 * digitValue y₁ + 100 * digitValue y₂ + 10 * digitValue y₃ +
      digitValue y₄ = yy
    generalize 10 * digitValue m₁ + digitValue m₂ = mm at hm1 hm12 ⊢
    generalize 10 * digitValue d₁ + digitValue d₂ = dd
    have hmm : ¬ ((mm : Int) - 1 < 0) := by omega
    by_cases hy : (yy : Int) > Y
    · rw [if_pos hy]
      have : ¬ ((yy : Int) ≤ Y) := by omega
      simp only [this, decide_False, Bool.false_and]
    · rw [if_neg hy]
      have : (yy : Int) ≤ Y := by omega
      simp only [if_neg hmm, this, decide_True, Bool.true_and]
      rw [daysInMonth_lookup _ _ hm1 hm12]
      simp only [Nat.cast_le]

/-- The `try` block of `isValidDate` neither throws nor indexes out of bounds. -/
theorem isValidDateBody_ok (Y : Int) (t : Text) : ∃ b, isValidDateBody Y t = .ok b := by
  by_cases he : t.isEmpty = true
  · exact ⟨true, by simp [isValidDateBody, he]⟩
  · by_cases hr : regex_match t datePattern = true
    · obtain ⟨_, _, _, _, _, _, _, _, _, _, _, hb⟩ := isValidDateBody_of_match Y t hr
      exact ⟨_, hb⟩
    · exact ⟨false, by simp [isValidDateBody, he, hr]⟩

theorem calendarDays_le (m y : Nat) : calendarDays m y ≤ 31 := by
  unfold calendarDays
  split_ifs <;> omega

theorem isValidDate_iff (Y : Int) (t : Text) :
    isValidDate Y t = true ↔ t = [] ∨ DateShape Y t := by
  constructor
  · intro h
    by_cases he : t = []
    · exact Or.inl he
    · right
      have he' : t.isEmpty = false := by cases t <;> simp_all
      by_cases hr : regex_match t datePattern = true
      · obtain ⟨d₁, d₂, m₁, m₂, y₁, y₂, y₃, y₄, ht, hdig, ⟨hd1, hm1, hm12⟩, hb⟩ :=
          isValidDateBody_of_match Y t hr
        simp only [isValidDate, hb, Bool.and_eq_true, decide_eq_true_eq] at h
        exact ⟨d₁, d₂, m₁, m₂, y₁, y₂, y₃, y₄, ht, hdig, ⟨hm1, hm12⟩, h.1, hd1, h.2⟩
      · simp [isValidDate, isValidDateBody, he', hr] at h
  · rintro (rfl | ⟨d₁, d₂, m₁, m₂, y₁, y₂, y₃, y₄, rfl, hdig, ⟨hm1, hm12⟩, hy, hd1, hd⟩)
    · simp [isValidDate, isValidDateBody]
    · have hr : regex_match [d₁, d₂, ch '/', m₁, m₂, ch '/', y₁, y₂, y₃, y₄] datePattern
          = true := by
        rw [regex_match_datePattern]
        have h31 : 10 * digitValue d₁ + digitValue d₂ ≤ 31 := le_trans hd (calendarDays_le _ _)
        obtain ⟨h₁, h₂, h₃, h₄, h₅, h₆, h₇, h₈⟩ := hdig
        refine ⟨d₁, d₂, m₁, m₂, [y₁, y₂, y₃, y₄], rfl, ?_, ?_, rfl, ?_⟩
        · have c0 : (ch '0').val = 48 := rfl
          have c1 : (ch '1').val = 49 := rfl
          have c2 : (ch '2').val = 50 := rfl
          have c3 : (ch '3').val = 51 := rfl
          have c9 : (ch '9').val = 57 := rfl
          rw [isDigit_val] at h₁ h₂
          simp only [eq_ch_iff, Fin.le_def, c0, c1, c2, c3, c9]
          unfold digitValue at hd1 h31
          omega
        · have c0 : (ch '0').val = 48 := rfl
          have c1 : (ch '1').val = 49 := rfl
          have c2 : (ch '2').val = 50 := rfl
          have c9 : (ch '9').val = 57 := rfl
          rw [isDigit_val] at h₃ h₄
          simp only [eq_ch_iff, Fin.le_def, c0, c1, c2, c9]
          unfold digitValue at hm1 hm12
          omega
        · intro c hc
          simp only [List.mem_cons, List.mem_singleton, List.not_mem_nil, or_false] at hc
          rcases hc with rfl | rfl | rfl | rfl <;> assumption
      obtain ⟨e₁, e₂, n₁, n₂, z₁, z₂, z₃, z₄, ht, -, -, hb⟩ := isValidDateBody_of_match Y _ hr
      simp only [List.cons.injEq, and_true] at ht
      obtain ⟨rfl, rfl, -, rfl, rfl, -, rfl, rfl, rfl, rfl⟩ := ht
      simp only [isValidDate, hb, Bool.and_eq_true, decide_eq_true_eq]
      exact ⟨hy, hd⟩

theorem isValidDate_examples (Y : Int) (hY : 2024 ≤ Y) :
    isValidDate Y (str "29/02/2024") = true ∧ isValidDate Y (str "29/02/2023") = false ∧
      isValidDate Y (str "31/04/2024") = false ∧ isValidDate Y (str "") = true := by
  refine ⟨?_, ?_, ?_, ?_⟩
  · rw [isValidDate_iff]
    right
    refine ⟨ch '2', ch '9', ch '0', ch '2', ch '2', ch '0', ch '2', ch '4', by decide,
      by unfold IsDigit; decide, by decide, ?_, by decide⟩
    have : 1000 * digitValue (ch '2') + 100 * digitValue (ch '0') + 10 * digitValue (ch '2') +
      digitValue (ch '4') = 2024 := by decide
    rw [this]
    exact hY
  · rw [Bool.eq_false_iff, ne_eq, isValidDate_iff]
    rintro (h | ⟨d₁, d₂, m₁, m₂, y₁, y₂, y₃, y₄, ht, -, -, -, -, hd⟩)
    · exact absurd h (by decide)
    · have ht' : [d₁, d₂, ch '/', m₁, m₂, ch '/', y₁, y₂, y₃, y₄] =
          [ch '2', ch '9', ch '/', ch '0', ch '2', ch '/', ch '2', ch '0', ch '2', ch '3'] := by
        rw [← ht]; decide
      simp only [List.cons.injEq, and_true, true_and] at ht'
      obtain ⟨rfl, rfl, rfl, rfl, rfl, rfl, rfl, rfl⟩ := ht'
      exact absurd hd (by decide)
  · rw [Bool.eq_false_iff, ne_eq, isValidDate_iff]
    rintro (h | ⟨d₁, d₂, m₁, m₂, y₁, y₂, y₃, y₄, ht, -, -, -, -, hd⟩)
    · exact absurd h (by decide)
    · have ht' : [d₁, d₂, ch '/', m₁, m₂, ch '/', y₁, y₂, y₃, y₄] =
          [ch '3', ch '1', ch '/', ch '0', ch '4', ch '/', ch '2', ch '0', ch '2', ch '4'] := by
        rw [← ht]; decide
      simp only [List.cons.injEq, and_true, true_and] at ht'
      obtain ⟨rfl, rfl, rfl, rfl, rfl, rfl, rfl, rfl⟩ := ht'
      exact absurd hd (by decide)
  · rw [isValidDate_iff]
    exact Or.inl (by decide)

/-- C5: for every current year and text, `isValidDate` holds exactly for the
empty text and for `DD/MM/YYYY` with month 1-12, year not after the current
year and day between 1 and the length of that month (February has 29 days in
Gregorian leap years); with a current year of 2024 or later `29/02/2024` and
the empty text are valid, `29/02/2023` and `31/04/2024` are not. -/
theorem isValidDate_spec :
    (∀ (Y : Int) (t : Text), isValidDate Y t = true ↔ t = [] ∨ DateShape Y t) ∧
      ∀ Y : Int, 2024 ≤ Y →
        isValidDate Y (str "29/02/2024") = true ∧ isValidDate Y (str "29/02/2023") = false ∧
          isValidDate Y (str "31/04/2024") = false ∧ isValidDate Y (str "") = true :=
  ⟨isValidDate_iff, isValidDate_examples⟩

theorem isValidDate_spec_witness :
    isValidDate 2024 (str "29/02/2024") = true ∧ isValidDate 2024 (str "29/02/2023") = false ∧
      isValidDate 2024 (str "31/04/2024") = false ∧ isValidDate 2024 (str "") = true :=
  isValidDate_spec.2 2024 (by decide)

/-! ## The binary store file: `saveToFile` and `loadFromFile` -/

theorem length_toBytesLE (k n : Nat) : (toBytesLE k n).length = k := by
  induction k generalizing n with
  | zero => rfl
  | succ k ih => simp [toBytesLE, ih]

theorem fromBytesLE_toBytesLE (k n : Nat) : fromBytesLE (toBytesLE k n) = n % 256 ^ k := by
  induction k generalizing n with
  | zero => simp [toBytesLE, fromBytesLE, Nat.mod_one]
  | succ k ih =>
    simp only [toBytesLE, fromBytesLE, ih, Fin.ofNat, Nat.mod_mod]
    rw [pow_succ, Nat.mul_comm (256 ^ k) 256, Nat.mod_mul]

theorem length_sizeBytes (n : Nat) : (sizeBytes n).length = 8 := length_toBytesLE _ _

theorem fromBytesLE_sizeBytes {n : Nat} (h : n < 2 ^ 64) : fromBytesLE (sizeBytes n) = n := by
  unfold sizeBytes
  rw [fromBytesLE_toBytesLE, Nat.mod_eq_of_lt h]
  exact Nat.mod_eq_of_lt (by norm_num at h ⊢; exact h)

theorem read_append (a b : List Byte) :
    IStream.read { rest := a ++ b, good := true } a.length = (a, { rest := b, good := true }) := by
  simp [IStream.read]

theorem read_short {a : List Byte} {n : Nat} (h : a.length < n) :
    (IStream.read { rest := a, good := true } n).2.good = false := by
  simp [IStream.read, Nat.not_le.mpr h]

theorem readField_append {f : Text} (h : f.length < 2 ^ 64) (rest : List Byte) :
    readField { rest := writeField f ++ rest, good := true } =
      .ok (f, { rest := rest, good := true }) := by
  have h8 := read_append (sizeBytes f.length) (f ++ rest)
  rw [length_sizeBytes] at h8
  unfold readField writeField
  simp only [List.append_assoc, h8, fromBytesLE_sizeBytes h, read_append, Bool.not_true,
    Bool.false_eq_true, if_false]

theorem readFields_append {fs : List Text} (h : ∀ f ∈ fs, f.length < 2 ^ 64)
    (rest : List Byte) :
    readFields fs.length { rest := fs.flatMap writeField ++ rest, good := true } =
      .ok (fs, { rest := rest, good := true }) := by
  induction fs with
  | nil => rfl
  | cons f fs ih =>
    simp only [List.length_cons, readFields, List.flatMap_cons, List.append_assoc,
      readField_append (h f (List.mem_cons_self _ _)),
      ih (fun g hg => h g (List.mem_cons_of_mem _ hg))]

theorem ofFields_fields (c : Contact) : Contact.ofFields c.fields = c := rfl

theorem length_fields (c : Contact) : c.fields.length = 7 := rfl

theorem readContacts_append {cs : List Contact}
    (h : ∀ c ∈ cs, ∀ f ∈ c.fields, f.length < 2 ^ 64) (rest : List Byte) (acc : List Contact) :
    readContacts cs.length
        { rest := cs.flatMap (fun c => c.fields.flatMap writeField) ++ rest, good := true } acc =
      .ok (acc ++ cs) := by
  induction cs generalizing acc with
  | nil => simp [readContacts]
  | cons c cs ih =>
    have hc := readFields_append (h c (List.mem_cons_self _ _))
      (cs.flatMap (fun c => c.fields.flatMap writeField) ++ rest)
    rw [length_fields] at hc
    simp only [List.length_cons, readContacts, List.flatMap_cons, List.append_assoc, hc,
      ofFields_fields, ih (fun d hd => h d (List.mem_cons_of_mem _ hd))]
    simp

theorem readCount_saveBytes {n : Nat} (h : n < 2 ^ 64) (junk : Nat) (rest : List Byte) :
    readCount junk { rest := sizeBytes n ++ rest, good := true } =
      (n, { rest := rest, good := true }) := by
  have h8 := read_append (sizeBytes n) rest
  rw [length_sizeBytes] at h8
  have hd : List.drop 8 (sizeBytes junk) = [] :=
    List.drop_eq_nil_of_le (by rw [length_sizeBytes])
  simp [readCount, h8, length_sizeBytes, fromBytesLE_sizeBytes h, hd]

theorem loadFromFile_saved (junk : Nat) (m : ContactManager) (cs : List Contact)
    (hfile : m.files filename = some (saveBytes cs)) (hfit : FitsSizeT cs) :
    (loadFromFile junk m).contacts = cs := by
  have hr := readContacts_append hfit.2 [] []
  simp only [List.append_nil, List.nil_append] at hr
  simp only [loadFromFile, hfile, saveBytes, readCount_saveBytes hfit.1, hr]

theorem length_writeField (f : Text) : (writeField f).length = 8 + f.length := by
  simp [writeField, length_sizeBytes]

theorem readField_truncated {f : Text} (hf : f.length < 2 ^ 64) {k : Nat}
    (hk : k < (writeField f).length) :
    ∃ e, readField { rest := (writeField f).take k, good := true } = .error e := by
  rw [length_writeField] at hk
  by_cases h8 : k < 8
  · refine ⟨.fieldLength, ?_⟩
    have hs : (IStream.read { rest := (writeField f).take k, good := true } 8).2.good = false :=
      read_short (by rw [List.length_take, length_writeField]; omega)
    simp [readField, hs]
  · refine ⟨.fieldData, ?_⟩
    have ht : (writeField f).take k = sizeBytes f.length ++ f.take (k - 8) := by
      unfold writeField
      rw [List.take_append_eq_append_take, length_sizeBytes,
        List.take_of_length_le (by rw [length_sizeBytes]; omega)]
    have hr := read_append (sizeBytes f.length) (f.take (k - 8))
    rw [length_sizeBytes] at hr
    have hs : (IStream.read { rest := f.take (k - 8), good := true } f.length).2.good = false :=
      read_short (by rw [List.length_take]; omega)
    simp [readField, ht, hr, fromBytesLE_sizeBytes hf, hs]

theorem readFields_truncated {fs : List Text} (h : ∀ f ∈ fs, f.length < 2 ^ 64) {k : Nat}
    (hk : k < (fs.flatMap writeField).length) :
    ∃ e, readFields fs.length { rest := (fs.flatMap writeField).take k, good := true } =
      .error e := by
  induction fs generalizing k with
  | nil => simp at hk
  | cons f fs ih =>
    have hf := h f (List.mem_cons_self _ _)
    rw [List.flatMap_cons, List.length_append] at hk
    rw [List.flatMap_cons, List.take_append_eq_append_take]
    by_cases hlt : k < (writeField f).length
    · obtain ⟨e, he⟩ := readField_truncated hf hlt
      refine ⟨e, ?_⟩
      have h0 : List.take (k - (writeField f).length) (fs.flatMap writeField) = [] := by
        rw [show k - (writeField f).length = 0 by omega]; rfl
      simp only [List.length_cons, readFields, h0, List.append_nil, he]
    · obtain ⟨e, he⟩ := ih (fun g hg => h g (List.mem_cons_of_mem _ hg))
        (k := k - (writeField f).length) (by omega)
      refine ⟨e, ?_⟩
      rw [List.take_of_length_le (by omega)]
      simp only [List.length_cons, readFields, readField_append hf, he]

theorem readContacts_truncated {cs : List Contact}
    (h : ∀ c ∈ cs, ∀ f ∈ c.fields, f.length < 2 ^ 64) {k : Nat}
    (hk : k < (cs.flatMap (fun c => c.fields.flatMap writeField)).length)
    (acc : List Contact) :
    ∃ e, readContacts cs.length
        { rest := (cs.flatMap (fun c => c.fields.flatMap writeField)).take k, good := true }
        acc = .error e := by
  induction cs generalizing k acc with
  | nil => simp at hk
  | cons c cs ih =>
    have hc := h c (List.mem_cons_self _ _)
    rw [List.flatMap_cons, List.length_append] at hk
    rw [List.flatMap_cons, List.take_append_eq_append_take]
    by_cases hlt : k < (c.fields.flatMap writeField).length
    · obtain ⟨e, he⟩ := readFields_truncated hc hlt
      refine ⟨e, ?_⟩
      have h0 : List.take (k - (c.fields.flatMap writeField).length)
          (cs.flatMap (fun c => c.fields.flatMap writeField)) = [] := by
        rw [show k - (c.fields.flatMap writeField).length = 0 by omega]; rfl
      rw [length_fields] at he
      simp only [List.length_cons, readContacts, h0, List.append_nil, he]
    · obtain ⟨e, he⟩ := ih (fun d hd => h d (List.mem_cons_of_mem _ hd))
        (k := k - (c.fields.flatMap writeField).length) (by omega) (acc ++ [c])
      refine ⟨e, ?_⟩
      rw [List.take_of_length_le (by omega)]
      have hf := readFields_append hc
        (List.take (k - (c.fields.flatMap writeField).length)
          (cs.flatMap (fun c => c.fields.flatMap writeField)))
      rw [length_fields] at hf
      simp only [List.length_cons, readContacts, hf, ofFields_fields, he]

theorem loadFromFile_truncated (junk : Nat) (m : ContactManager) (cs : List Contact) (k : Nat)
    (hfit : FitsSizeT cs) (hk8 : 8 ≤ k) (hk : k < (saveBytes cs).length)
    (hfile : m.files filename = some ((saveBytes cs).take k)) :
    (loadFromFile junk m).contacts = [] ∧
      (loadFromFile junk m).files "contacts.dat.backup" = some ((saveBytes cs).take k) := by
  have ht : (saveBytes cs).take k = sizeBytes cs.length ++
      (cs.flatMap (fun c => c.fields.flatMap writeField)).take (k - 8) := by
    unfold saveBytes
    rw [List.take_append_eq_append_take, length_sizeBytes,
      List.take_of_length_le (by rw [length_sizeBytes]; omega)]
  have hk' : k - 8 < (cs.flatMap (fun c => c.fields.flatMap writeField)).length := by
    unfold saveBytes at hk
    rw [List.length_append, length_sizeBytes] at hk
    omega
  obtain ⟨e, he⟩ := readContacts_truncated hfit.2 hk' []
  have hb : filename ++ ".backup" = "contacts.dat.backup" := by decide
  simp only [loadFromFile, hfile, ht, readCount_saveBytes hfit.1, he, hb, writeFile, if_true,
    and_self]

theorem saveToFile_files (m : ContactManager) :
    (saveToFile m).files filename = some (saveBytes m.contacts) := by
  simp [saveToFile, writeFile]

theorem fitsSizeT_sampleContacts : FitsSizeT sampleContacts := by
  unfold FitsSizeT
  decide

/-- C1: loading the bytes that `saveToFile` wrote for a store gives back the
same contacts, in the same order, with all seven fields equal. The sizes of the
store and of its fields are `size_t` values, as in the program. -/
theorem load_save_roundtrip (junk : Nat) (m m' : ContactManager)
    (hfit : FitsSizeT m.contacts)
    (hfile : m'.files filename = (saveToFile m).files filename) :
    (loadFromFile junk m').contacts = m.contacts :=
  loadFromFile_saved junk m' m.contacts (hfile.trans (saveToFile_files m)) hfit

theorem load_save_roundtrip_witness :
    FitsSizeT sampleManager.contacts ∧
      (loadFromFile 0 (saveToFile sampleManager)).contacts = sampleManager.contacts :=
  ⟨fitsSizeT_sampleContacts,
    load_save_roundtrip 0 sampleManager (saveToFile sampleManager) fitsSizeT_sampleContacts rfl⟩

/-- C2: when the store file is a proper prefix, at least 8 bytes long, of the
bytes `saveToFile` wrote for a store, `loadFromFile` ends with no contacts and
`contacts.dat.backup` holds exactly the bytes of the truncated file. (Such a
prefix exists only for a store with at least one contact.) -/
theorem load_truncated_file (junk : Nat) (m m' : ContactManager) (bytes : List Byte) (k : Nat)
    (hfit : FitsSizeT m.contacts)
    (hsaved : (saveToFile m).files filename = some bytes)
    (hk8 : 8 ≤ k) (hk : k < bytes.length)
    (hfile : m'.files filename = some (bytes.take k)) :
    (loadFromFile junk m').contacts = [] ∧
      (loadFromFile junk m').files "contacts.dat.backup" = some (bytes.take k) := by
  rw [saveToFile_files] at hsaved
  cases hsaved
  exact loadFromFile_truncated junk m' m.contacts k hfit hk8 hk hfile

set_option maxRecDepth 100000 in
theorem load_truncated_file_witness :
    (8 ≤ 100 ∧ 100 < (saveBytes sampleContacts).length) ∧
      (loadFromFile 0 truncatedManager).contacts = [] ∧
      (loadFromFile 0 truncatedManager).files "contacts.dat.backup" =
        some ((saveBytes sampleContacts).take 100) :=
  ⟨by decide,
    load_truncated_file 0 sampleManager truncatedManager (saveBytes sampleContacts) 100
      fitsSizeT_sampleContacts (saveToFile_files sampleManager) (by decide) (by decide) rfl⟩

/-! ## `searchContact` -/

theorem find_isSome_iff (term s : Text) (pos : Nat) :
    (find term s pos).isSome = true ↔ term <:+: s := by
  induction s generalizing pos with
  | nil => cases term <;> simp [find]
  | cons c cs ih =>
    rw [find, List.infix_cons_iff]
    by_cases hp : term.isPrefixOf (c :: cs) = true
    · simp only [hp, if_true, Option.isSome_some, true_iff]
      exact Or.inl (List.isPrefixOf_iff_prefix.mp hp)
    · simp only [hp, Bool.false_eq_true, if_false, ih]
      constructor
      · exact Or.inr
      · rintro (h | h)
        · exact absurd (List.isPrefixOf_iff_prefix.mpr h) hp
        · exact h

theorem displayed_append (a b : List Output) : displayed (a ++ b) = displayed a ++ displayed b := by
  induction a with
  | nil => rfl
  | cons o os ih => cases o <;> simp [displayed, ih]

theorem displayed_searchLoop (term : Text) (cs : List Contact) (found : Bool) :
    displayed (searchLoop term cs found).1 = cs.filter (fun c => decide (term <:+: c.name)) := by
  induction cs generalizing found with
  | nil => rfl
  | cons c cs ih =>
    by_cases h : term <:+: c.name
    · have hf := (find_isSome_iff term c.name 0).mpr h
      simp only [searchLoop, hf, if_true, List.filter_cons, h, decide_True, displayed_append,
        displayed, ih]
      cases found <;> simp [searchHeader, displayed]
    · have hf : ¬ (find term c.name 0).isSome = true := fun hf =>
        h ((find_isSome_iff term c.name 0).mp hf)
      simp only [searchLoop, hf, if_false, List.filter_cons, h, decide_False, ih,
        Bool.false_eq_true]

theorem displayed_searchContact (m : ContactManager) (term : Text) (rest : Input) :
    displayed (searchContact m (term :: rest)).1.console =
      displayed m.console ++ m.contacts.filter (fun c => decide (term <:+: c.name)) := by
  unfold searchContact
  by_cases he : m.contacts.isEmpty = true
  · have : m.contacts = [] := List.isEmpty_iff.mp he
    simp [he, this, ContactManager.print, displayed_append, displayed]
  · simp only [he, Bool.false_eq_true, if_false, getline, ContactManager.print,
      displayed_append, displayed, displayed_searchLoop, List.nil_append]
    split <;> simp [displayed, displayed_append, displayed_searchLoop]

/-- C10: the contacts `searchContact` displays are the store filtered, in store
order, by "the name contains the search term as a contiguous substring"
(bytes compared exactly, so case-sensitively); for the names Alice, bob,
Alicia and the term `Ali` these are Alice and Alicia, in that order. -/
theorem searchContact_spec :
    (∀ (m : ContactManager) (term : Text) (rest : Input),
      displayed (searchContact m (term :: rest)).1.console =
        displayed m.console ++ m.contacts.filter (fun c => decide (term <:+: c.name))) ∧
      displayed (searchContact aliceBobAlicia [str "Ali"]).1.console =
        [contactNamed "Alice", contactNamed "Alicia"] :=
  ⟨displayed_searchContact, by decide⟩

/-! ## `deleteContact` and `editContact` -/

theorem exists_first_named {cs : List Contact} {name : Text} (h : ∃ c ∈ cs, c.name = name) :
    ∃ pre c post, cs = pre ++ c :: post ∧ (∀ x ∈ pre, x.name ≠ name) ∧ c.name = name := by
  induction cs with
  | nil => simp at h
  | cons d ds ih =>
    by_cases hd : d.name = name
    · exact ⟨[], d, ds, rfl, by simp, hd⟩
    · obtain ⟨c, hc, hn⟩ := h
      rcases List.mem_cons.mp hc with rfl | hc'
      · exact absurd hn hd
      · obtain ⟨pre, c', post, rfl, hpre, hc''⟩ := ih ⟨c, hc', hn⟩
        refine ⟨d :: pre, c', post, rfl, ?_, hc''⟩
        intro x hx
        rcases List.mem_cons.mp hx with rfl | hx'
        · exact hd
        · exact hpre x hx'

theorem deleteLoop_first {name : Text} {pre : List Contact} {c : Contact} (post : List Contact)
    (hpre : ∀ x ∈ pre, x.name ≠ name) (hc : c.name = name) (pos : Nat) :
    deleteLoop name (pre ++ c :: post) pos = some (pos + pre.length) := by
  induction pre generalizing pos with
  | nil => simp [deleteLoop, hc]
  | cons d ds ih =>
    have hd : d.name ≠ name := hpre d (List.mem_cons_self _ _)
    rw [List.cons_append, deleteLoop, if_neg hd,
      ih (fun x hx => hpre x (List.mem_cons_of_mem _ hx)), List.length_cons]
    congr 1
    omega

theorem deleteLoop_none {name : Text} {cs : List Contact} (h : ∀ x ∈ cs, x.name ≠ name)
    (pos : Nat) : deleteLoop name cs pos = none := by
  induction cs generalizing pos with
  | nil => rfl
  | cons d ds ih =>
    have hd : d.name ≠ name := h d (List.mem_cons_self _ _)
    simp only [deleteLoop, hd, if_false, ih (fun x hx => h x (List.mem_cons_of_mem _ hx))]

theorem eraseIdx_first (pre : List Contact) (c : Contact) (post : List Contact) :
    (pre ++ c :: post).eraseIdx pre.length = pre ++ post := by
  induction pre with
  | nil => rfl
  | cons d ds ih => simp [List.eraseIdx, ih]

theorem deleteContact_cancel (m : ContactManager) (name : Text) (rest : Input) :
    (deleteContact m (name :: str "n" :: rest)).1.contacts = m.contacts := by
  unfold deleteContact
  by_cases he : m.contacts.isEmpty = true
  · simp [he, ContactManager.print]
  · have hn : ¬ (str "n" = str "y" ∨ str "n" = str "Y") := by decide
    simp only [he, Bool.false_eq_true, if_false, getline, ContactManager.print, hn]
    split <;> rfl

theorem deleteContact_confirm (m : ContactManager) (name : Text) (rest : Input)
    {pre : List Contact} {c : Contact} {post : List Contact}
    (hm : m.contacts = pre ++ c :: post) (hpre : ∀ x ∈ pre, x.name ≠ name)
    (hc : c.name = name) :
    (deleteContact m (name :: str "y" :: rest)).1.contacts = pre ++ post := by
  unfold deleteContact
  have he : (pre ++ c :: post).isEmpty = false := by cases pre <;> rfl
  simp only [hm, he, Bool.false_eq_true, if_false, getline, ContactManager.print,
    deleteLoop_first post hpre hc 0, Nat.zero_add, true_or, if_true, saveToFile,
    eraseIdx_first]

theorem deleteContact_missing (m : ContactManager) (name : Text) (cin : Input)
    (h : ∀ c ∈ m.contacts, c.name ≠ name) :
    (deleteContact m (name :: cin)).1.contacts = m.contacts := by
  unfold deleteContact
  by_cases he : m.contacts.isEmpty = true
  · simp [he, ContactManager.print]
  · simp only [he, Bool.false_eq_true, if_false, getline, ContactManager.print,
      deleteLoop_none h 0]

/-- C8: if some contact has the given name, `deleteContact` with the answer
`n` leaves the store as it is, and with the answer `y` removes exactly the
first contact of that name, the others keeping their order; if no contact has
the name the store is left as it is. -/
theorem deleteContact_spec (m : ContactManager) (name : Text) (rest : Input) :
    ((∃ c ∈ m.contacts, c.name = name) →
      (deleteContact m (name :: str "n" :: rest)).1.contacts = m.contacts ∧
        ∃ pre c post, m.contacts = pre ++ c :: post ∧ (∀ x ∈ pre, x.name ≠ name) ∧
          c.name = name ∧
          (deleteContact m (name :: str "y" :: rest)).1.contacts = pre ++ post) ∧
      ((∀ c ∈ m.contacts, c.name ≠ name) →
        (deleteContact m (name :: rest)).1.contacts = m.contacts) := by
  refine ⟨fun h => ⟨deleteContact_cancel m name rest, ?_⟩, deleteContact_missing m name rest⟩
  obtain ⟨pre, c, post, hm, hpre, hc⟩ := exists_first_named h
  exact ⟨pre, c, post, hm, hpre, hc, deleteContact_confirm m name rest hm hpre hc⟩

theorem deleteContact_spec_witness :
    (∃ c ∈ sampleManager.contacts, c.name = str "Zoë") ∧
      (deleteContact sampleManager [str "Zoë", str "n"]).1.contacts = sampleManager.contacts ∧
      ∃ pre c post, sampleManager.contacts = pre ++ c :: post ∧
        (∀ x ∈ pre, x.name ≠ str "Zoë") ∧ c.name = str "Zoë" ∧
        (deleteContact sampleManager [str "Zoë", str "y"]).1.contacts = pre ++ post :=
  ⟨⟨_, List.mem_cons_self _ _, rfl⟩,
    (deleteContact_spec sampleManager (str "Zoë") []).1 ⟨_, List.mem_cons_self _ _, rfl⟩⟩

theorem editLoop_first {searchName : Text} {pre : List Contact} {c : Contact}
    (post : List Contact) (hpre : ∀ x ∈ pre, x.name ≠ searchName) (hc : c.name = searchName)
    (newName newPhone newEmail : Text) (rest : Input) :
    editLoop searchName (newName :: newPhone :: newEmail :: rest) (pre ++ c :: post) =
      some (pre ++ edited c newName newPhone newEmail :: post, rest) := by
  induction pre with
  | nil =>
    subst hc
    cases c
    simp only [List.nil_append, editLoop, if_true, getline, edited, Option.some.injEq,
      Prod.mk.injEq, List.cons.injEq, and_true]
    cases newName <;> cases newPhone <;> cases newEmail <;> simp
  | cons d ds ih =>
    have hd : d.name ≠ searchName := hpre d (List.mem_cons_self _ _)
    rw [List.cons_append, editLoop, if_neg hd,
      ih (fun x hx => hpre x (List.mem_cons_of_mem _ hx))]
    rfl

theorem editLoop_none {searchName : Text} {cs : List Contact}
    (h : ∀ x ∈ cs, x.name ≠ searchName) (cin : Input) : editLoop searchName cin cs = none := by
  induction cs with
  | nil => rfl
  | cons d ds ih =>
    have hd : d.name ≠ searchName := h d (List.mem_cons_self _ _)
    rw [editLoop, if_neg hd, ih (fun x hx => h x (List.mem_cons_of_mem _ hx))]
    rfl

theorem editContact_first (m : ContactManager) (searchName newName newPhone newEmail : Text)
    (rest : Input) {pre : List Contact} {c : Contact} {post : List Contact}
    (hm : m.contacts = pre ++ c :: post) (hpre : ∀ x ∈ pre, x.name ≠ searchName)
    (hc : c.name = searchName) :
    (editContact m (searchName :: newName :: newPhone :: newEmail :: rest)).1.contacts =
      pre ++ edited c newName newPhone newEmail :: post := by
  unfold editContact
  have he : (pre ++ c :: post).isEmpty = false := by cases pre <;> rfl
  simp only [hm, he, Bool.false_eq_true, if_false, getline, ContactManager.print,
    editLoop_first post hpre hc, saveToFile]

theorem editContact_missing (m : ContactManager) (searchName : Text) (cin : Input)
    (h : ∀ c ∈ m.contacts, c.name ≠ searchName) :
    (editContact m (searchName :: cin)).1.contacts = m.contacts := by
  unfold editContact
  by_cases he : m.contacts.isEmpty = true
  · simp [he, ContactManager.print]
  · simp only [he, Bool.false_eq_true, if_false, getline, ContactManager.print,
      editLoop_none h]

/-- C9: `editContact` changes only the first contact whose name equals the
search name: its name, phone and email become the inputs that are not empty,
its other four fields, all other contacts, their number and their order stay;
if no contact has that name the store stays as it is. -/
theorem editContact_spec (m : ContactManager) (searchName newName newPhone newEmail : Text)
    (rest : Input) :
    (∀ pre c post, m.contacts = pre ++ c :: post → (∀ x ∈ pre, x.name ≠ searchName) →
      c.name = searchName →
      (editContact m (searchName :: newName :: newPhone :: newEmail :: rest)).1.contacts =
        pre ++ edited c newName newPhone newEmail :: post) ∧
      ((∀ c ∈ m.contacts, c.name ≠ searchName) →
        (editContact m (searchName :: newName :: newPhone :: newEmail :: rest)).1.contacts =
          m.contacts) :=
  ⟨fun _ _ _ hm hpre hc => editContact_first m searchName newName newPhone newEmail rest hm hpre hc,
    editContact_missing m searchName _⟩

theorem editContact_spec_witness :
    (editContact sampleManager [str "Bob", str "Robert", [], str "rob@example.org"]).1.contacts =
      [{ name := str "Zoë", phone := str "+4915112345678", email := str "zoe@example.org",
         address := [], birthday := [], notes := str "née Müller", category := str "Family" },
       { name := str "Robert", phone := str "12345678", email := str "rob@example.org",
         address := str "1 Main St", birthday := str "29/02/2024", notes := [],
         category := str "Work" },
       { name := str "Zoë", phone := str "87654321", email := str "z@z.zz",
         address := [], birthday := [], notes := [], category := str "Personal" }] :=
  (editContact_spec sampleManager (str "Bob") (str "Robert") [] (str "rob@example.org") []).1
    [_] _ [_] rfl (by decide) rfl

/-! ## `sortContacts` -/

theorem compare_cons_cons_eq (a : Byte) (s t : Text) :
    compare (a :: s) (a :: t) = compare s t := by
  unfold compare
  have hm : min (a :: s).length (a :: t).length = min s.length t.length + 1 := by
    simp only [List.length_cons]; omega
  have hl : ((a :: s).length : Int) - ((a :: t).length : Int) = (s.length : Int) - t.length := by
    simp only [List.length_cons]; omega
  rw [hm, hl]
  simp only [traitsCompare, lt_irrefl, if_false]

theorem compare_lt_zero_iff (s t : Text) : compare s t < 0 ↔ LexLess s t := by
  unfold LexLess
  induction s generalizing t with
  | nil =>
    cases t with
    | nil =>
      simp only [compare, traitsCompare, List.length_nil]
      constructor
      · intro h; omega
      · intro h; exact absurd h (List.Lex.not_nil_right _ _)
    | cons b bs =>
      simp only [compare, traitsCompare, List.length_nil, List.length_cons]
      constructor
      · intro _; exact List.Lex.nil
      · intro _; simp only [ne_eq, not_true_eq_false, if_false]; omega
  | cons a as ih =>
    cases t with
    | nil =>
      have h0 : min (a :: as).length ([] : Text).length = 0 := by simp
      simp only [compare, h0, traitsCompare, List.length_nil, List.length_cons]
      constructor
      · intro h; simp only [ne_eq, not_true_eq_false, if_false] at h; omega
      · intro h; exact absurd h (List.Lex.not_nil_right _ _)
    | cons b bs =>
      rcases lt_trichotomy a b with hab | hab | hab
      · have hm : min (a :: as).length (b :: bs).length = min as.length bs.length + 1 := by
          simp only [List.length_cons]; omega
        simp only [compare, hm, traitsCompare, hab, if_true]
        constructor
        · intro _; exact List.Lex.rel hab
        · intro _; simp
      · subst hab
        rw [compare_cons_cons_eq, ih, List.Lex.cons_iff]
      · have hm : min (a :: as).length (b :: bs).length = min as.length bs.length + 1 := by
          simp only [List.length_cons]; omega
        have hba : ¬ a < b := not_lt.mpr (le_of_lt hab)
        simp only [compare, hm, traitsCompare, hba, hab, if_true, if_false]
        constructor
        · intro h; simp at h
        · intro h
          cases h with
          | cons h' => exact absurd hab (lt_irrefl _)
          | rel h' => exact absurd h' hba

theorem nameLess_iff (a b : Contact) : nameLess a b = true ↔ LexLess a.name b.name := by
  simp [nameLess, compare_lt_zero_iff]

theorem nameLess_eq_false_iff (a b : Contact) :
    nameLess a b = false ↔ ¬ LexLess a.name b.name := by
  rw [← nameLess_iff, Bool.not_eq_true]

theorem lexLess_irrefl (s : Text) : ¬ LexLess s s :=
  irrefl_of (List.Lex (fun a b : Byte => a < b)) s

theorem lexLess_trans {s t u : Text} (h₁ : LexLess s t) (h₂ : LexLess t u) : LexLess s u :=
  IsTrans.trans (r := List.Lex (fun a b : Byte => a < b)) _ _ _ h₁ h₂

theorem eq_of_not_lexLess {s t : Text} (h₁ : ¬ LexLess s t) (h₂ : ¬ LexLess t s) : s = t := by
  rcases trichotomous_of (List.Lex (fun a b : Byte => a < b)) s t with h | h | h
  · exact absurd h h₁
  · exact h
  · exact absurd h h₂

theorem strictWeakOrdering_nameLess : StrictWeakOrdering nameLess := by
  refine ⟨fun a => ?_, fun a b c hab hbc => ?_, fun a b c hab hba hbc hcb => ?_⟩
  · rw [nameLess_eq_false_iff]; exact lexLess_irrefl _
  · rw [nameLess_iff] at *; exact lexLess_trans hab hbc
  · simp only [nameLess_eq_false_iff] at *
    have e₁ := eq_of_not_lexLess hab hba
    have e₂ := eq_of_not_lexLess hbc hcb
    rw [e₁, e₂]
    exact ⟨lexLess_irrefl _, lexLess_irrefl _⟩

theorem stdSortContract_reversingSort : StdSortContract reversingSort := by
  intro comp l ⟨hirr, htr, heq⟩
  have hasym : ∀ a b, comp a b = true → comp b a = false := by
    intro a b hab
    by_contra hba
    rw [Bool.not_eq_false] at hba
    have := htr a b a hab hba
    rw [hirr a] at this
    exact Bool.false_ne_true this
  haveI : IsTotal Contact (fun a b => comp b a = false) := ⟨fun a b => by
    by_cases h : comp b a = true
    · exact Or.inr (hasym b a h)
    · exact Or.inl (by simpa using h)⟩
  haveI : IsTrans Contact (fun a b => comp b a = false) := ⟨fun a b c hba hcb => by
    show comp c a = false
    by_contra hca
    rw [Bool.not_eq_false] at hca
    by_cases hab : comp a b = true
    · have := htr c a b hca hab
      rw [hcb] at this
      exact Bool.false_ne_true this
    · by_cases hbc : comp b c = true
      · have := htr b c a hbc hca
        rw [hba] at this
        exact Bool.false_ne_true this
      · have := (heq a b c (by simpa using hab) hba (by simpa using hbc) hcb).2
        rw [hca] at this
        exact Bool.false_ne_true this.symm⟩
  exact ⟨(List.perm_insertionSort _ _).trans (List.reverse_perm l),
    List.sorted_insertionSort (fun a b => comp b a = false) l.reverse⟩

theorem sortContacts_contacts (stdSort : (Contact → Contact → Bool) → List Contact → List Contact)
    (m : ContactManager) : (sortContacts stdSort m).contacts = stdSort nameLess m.contacts := rfl

/-- C7, as amended: with any `std::sort` that keeps the promise of the C++
standard, `sortContacts` leaves a permutation of the store in ascending
byte-wise lexicographic order of name; nothing is said about the relative
order of contacts with equal names. -/
theorem sortContacts_sorted_perm
    (stdSort : (Contact → Contact → Bool) → List Contact → List Contact)
    (h : StdSortContract stdSort) (m : ContactManager) :
    (sortContacts stdSort m).contacts.Perm m.contacts ∧
      (sortContacts stdSort m).contacts.Pairwise (fun a b => ¬ LexLess b.name a.name) := by
  obtain ⟨hp, hs⟩ := h nameLess m.contacts strictWeakOrdering_nameLess
  rw [sortContacts_contacts]
  exact ⟨hp, hs.imp (fun {a b} hab => (nameLess_eq_false_iff b a).mp hab)⟩

theorem sortContacts_sorted_perm_witness :
    StdSortContract reversingSort ∧
      (sortContacts reversingSort sampleManager).contacts.Perm sampleManager.contacts ∧
      (sortContacts reversingSort sampleManager).contacts.Pairwise
        (fun a b => ¬ LexLess b.name a.name) :=
  ⟨stdSortContract_reversingSort,
    sortContacts_sorted_perm reversingSort stdSortContract_reversingSort sampleManager⟩

set_option maxRecDepth 1000000 in
theorem gnuSort_seventeen :
    gnuSort nameLess seventeen.contacts =
      some (contactWith "Ann" "+10000002" :: contactWith "Ann" "+10000001" ::
        seventeen.contacts.drop 2) := by
  decide

theorem sortContacts_gnu_seventeen :
    (sortContacts gnuStdSort seventeen).contacts =
      contactWith "Ann" "+10000002" :: contactWith "Ann" "+10000001" ::
        seventeen.contacts.drop 2 := by
  rw [sortContacts_contacts, gnuStdSort, gnuSort_seventeen]
  rfl

set_option maxRecDepth 100000 in
/-- C7, the counterexample: `sortContacts` is not a stable sort. A sorting
procedure that keeps the promise of `std::sort` swaps the two contacts named
Zoë; and the `std::sort` of GNU libstdc++, given seventeen contacts already in
order, swaps the two contacts named Ann. -/
theorem sortContacts_not_stable :
    (StdSortContract reversingSort ∧
        (sortContacts reversingSort twoZoes).contacts = twoZoes.contacts.reverse ∧
        ¬ StableByName twoZoes.contacts (sortContacts reversingSort twoZoes).contacts) ∧
      (sortContacts gnuStdSort seventeen).contacts =
        contactWith "Ann" "+10000002" :: contactWith "Ann" "+10000001" ::
          seventeen.contacts.drop 2 ∧
      ¬ StableByName seventeen.contacts (sortContacts gnuStdSort seventeen).contacts := by
  refine ⟨⟨stdSortContract_reversingSort, by decide, fun h => ?_⟩,
    sortContacts_gnu_seventeen, fun h => ?_⟩
  · have h' := h (str "Zoë")
    revert h'
    decide
  · have h' := h (str "Ann")
    rw [sortContacts_gnu_seventeen] at h'
    revert h'
    decide

/-! ## Validity of the stored phone numbers and e-mail addresses -/

theorem promptLoop_accepts {prompt complaint : String} {ok : Text → Bool}
    {finalNewline : Bool} {cin : Input} {r : Text × Input × List Output}
    (h : promptLoop prompt complaint ok finalNewline cin = some r) :
    ok r.1 = true := by
  induction cin generalizing r with
  | nil =>
    by_cases h0 : ok [] = true
    · simp only [promptLoop, h0, if_true, Option.some.injEq] at h
      rw [← h]; exact h0
    · simp [promptLoop, h0] at h
  | cons l ls ih =>
    by_cases hl : ok l = true
    · simp only [promptLoop, hl, if_true, Option.some.injEq] at h
      rw [← h]; exact hl
    · by_cases hlast : (ls.isEmpty && !finalNewline) = true
      · simp [promptLoop, hl, hlast] at h
      · simp only [promptLoop, hl, hlast, Bool.false_eq_true, if_false,
          Option.map_eq_some'] at h
        obtain ⟨r', hr', rfl⟩ := h
        exact ih (r := r') hr'

/-- The path that validates: `addContact` stores only a valid phone number and
a valid e-mail address. -/
theorem addContact_valid {currentYear : Int} {m m' : ContactManager} {cin rest : Input}
    {finalNewline : Bool} (h : addContact currentYear m cin finalNewline = some (m', rest))
    (hm : PhonesAndEmailsValid m.contacts) : PhonesAndEmailsValid m'.contacts := by
  unfold addContact at h
  split at h
  · exact absurd h (by simp)
  · rename_i name cin₁ out₁ _
    split at h
    · exact absurd h (by simp)
    · rename_i phone cin₂ out₂ hphone
      split at h
      · exact absurd h (by simp)
      · rename_i email cin₃ out₃ hemail
        simp only at h
        split at h
        · exact absurd h (by simp)
        · split at h
          · exact absurd h (by simp)
          · simp only [Option.some.injEq, Prod.mk.injEq] at h
            obtain ⟨rfl, -⟩ := h
            intro c hc
            simp only [saveToFile, List.mem_append, List.mem_singleton] at hc
            rcases hc with hc | rfl
            · exact hm c hc
            · exact ⟨promptLoop_accepts hphone, promptLoop_accepts hemail⟩

set_option maxRecDepth 100000 in
/-- C3, the failing run: after `addContact` has stored a valid contact,
`editContact` overwrites its phone and e-mail with texts that `isValidPhone`
and `isValidEmail` reject. -/
theorem editContact_stores_invalid :
    (addContact 2024 emptyManager
        [str "Alice", str "+12345678", str "alice@example.com", [], [], [], []] true).map
        (fun r => r.1.contacts) =
      some [{ name := str "Alice", phone := str "+12345678", email := str "alice@example.com",
              address := [], birthday := [], notes := [], category := str "Personal" }] ∧
      (addContact 2024 emptyManager
        [str "Alice", str "+12345678", str "alice@example.com", [], [], [], []] true).map
        (fun r => (editContact r.1 [str "Alice", [], str "abc", str "nobody"]).1.contacts) =
      some [{ name := str "Alice", phone := str "abc", email := str "nobody",
              address := [], birthday := [], notes := [], category := str "Personal" }] ∧
      isValidPhone (str "+12345678") = true ∧ isValidEmail (str "alice@example.com") = true ∧
      isValidPhone (str "abc") = false ∧ isValidEmail (str "nobody") = false := by
  decide

/-! ## The `try` block of `isValidDate` ends normally -/

/-- When the date pattern matches, the three `substr` calls succeed and `stoi`
parses each piece; the month read is between 1 and 12. -/
theorem date_parts_of_match (t : Text) (h : regex_match t datePattern = true) :
    ∃ day month year : Int,
      (substr t 0 2).bind stoi = some day ∧ (substr t 3 2).bind stoi = some month ∧
        (substr t 6 4).bind stoi = some year ∧ 0 ≤ month - 1 ∧ month - 1 ≤ 11 := by
  obtain ⟨d₁, d₂, m₁, m₂, y₁, y₂, y₃, y₄, rfl, ⟨hd₁, hd₂, hm₁, hm₂, hy₁, hy₂, hy₃, hy₄⟩,
    ⟨-, hm1, hm12⟩, -⟩ := isValidDateBody_of_match 0 t h
  have sd : stoi [d₁, d₂] = some (([d₁, d₂].foldl (fun acc d => 10 * acc + (d.val - 48)) 0 : Nat) : Int) := by
    apply stoi_digits (by simp [hd₁, hd₂])
    rw [isDigit_val] at hd₁ hd₂
    simp only [List.foldl]; omega
  have sm : stoi [m₁, m₂] = some ((10 * digitValue m₁ + digitValue m₂ : Nat) : Int) := by
    rw [stoi_digits (by simp [hm₁, hm₂])
      (by rw [isDigit_val] at hm₁ hm₂; simp only [List.foldl]; omega)]
    simp [List.foldl, digitValue]
  have sy : stoi [y₁, y₂, y₃, y₄] =
      some (([y₁, y₂, y₃, y₄].foldl (fun acc d => 10 * acc + (d.val - 48)) 0 : Nat) : Int) := by
    apply stoi_digits (by simp [hy₁, hy₂, hy₃, hy₄])
    rw [isDigit_val] at hy₁ hy₂ hy₃ hy₄
    simp only [List.foldl]; omega
  have p₁ : substr [d₁, d₂, ch '/', m₁, m₂, ch '/', y₁, y₂, y₃, y₄] 0 2 = some [d₁, d₂] := by
    simp [substr]
  have p₂ : substr [d₁, d₂, ch '/', m₁, m₂, ch '/', y₁, y₂, y₃, y₄] 3 2 = some [m₁, m₂] := by
    simp [substr]
  have p₃ : substr [d₁, d₂, ch '/', m₁, m₂, ch '/', y₁, y₂, y₃, y₄] 6 4 =
      some [y₁, y₂, y₃, y₄] := by
    simp [substr]
  refine ⟨(([d₁, d₂].foldl (fun acc d => 10 * acc + (d.val - 48)) 0 : Nat) : Int),
    ((10 * digitValue m₁ + digitValue m₂ : Nat) : Int),
    (([y₁, y₂, y₃, y₄].foldl (fun acc d => 10 * acc + (d.val - 48)) 0 : Nat) : Int),
    ?_, ?_, ?_, ?_, ?_⟩
  · rw [p₁, Option.some_bind]; exact sd
  · rw [p₂, Option.some_bind]; exact sm
  · rw [p₃, Option.some_bind]; exact sy
  · omega
  · omega

/-- For every text and every current year the `try` block of `isValidDate`
ends with a `return`: no exception is thrown and no index is out of bounds, so
the handler is never entered. -/
theorem isValidDate_eq_body (Y : Int) (t : Text) :
    ∃ b, isValidDateBody Y t = .ok b ∧ isValidDate Y t = b := by
  obtain ⟨b, hb⟩ := isValidDateBody_ok Y t
  exact ⟨b, hb, by simp [isValidDate, hb]⟩

/-! ## A rejected last line without a final newline -/

/-- When the last line of the input has no final newline and is rejected, the
prompt loop never ends. -/
theorem promptLoop_unterminated (prompt complaint : String) (ok : Text → Bool) (l : Text)
    (h : ok l = false) : promptLoop prompt complaint ok false [l] = none := by
  simp [promptLoop, h]

set_option maxRecDepth 100000 in
/-- The birthday loop of `addContact` on a rejected last line: with a final
newline the next read leaves the string empty and the contact is stored without
a birthday; without one the loop never ends. -/
theorem addContact_last_line_rejected :
    (addContact 2024 emptyManager
        [str "Alice", str "+12345678", str "alice@example.com", [], str "31/04/2024"] true).map
        (fun r => r.1.contacts) =
      some [{ name := str "Alice", phone := str "+12345678", email := str "alice@example.com",
              address := [], birthday := [], notes := [], category := str "Personal" }] ∧
      addContact 2024 emptyManager
        [str "Alice", str "+12345678", str "alice@example.com", [], str "31/04/2024"] false =
        none := by
  constructor
  · decide
  · rfl

/-! ## `isValidEmail` on a finite stack -/

theorem getD_set_self (l : List (Nat × Nat)) (i : Nat) (x : Nat × Nat) :
    (l.set i x).getD i (0, 0) = x ∨ (l.set i x).getD i (0, 0) = (0, 0) := by
  rw [List.getD_eq_getElem?_getD, List.getElem?_set]
  by_cases h : i < l.length
  · left; simp [h]
  · right; simp [h]

theorem emailNfa_one : emailNfa[1]? = some (.char emailLocalSet 2) := rfl

theorem emailNfa_two : emailNfa[2]? = some (.rep 3 1 false) := rfl

theorem emailNfa_zero : emailNfa[0]? = some (.subexprBegin 1) := rfl

theorem emailLocalSet_a : emailLocalSet (ch 'a') = true := by decide

/-- On a run of `n` letters `a` the matcher, greedy in the local part, goes two
activations deeper for each letter before anything returns: from state 1 with
`r` letters left it needs more than `2 * r` activations, from state 2 more
than `2 * r + 1`. -/
theorem dfs_overflow_a (n : Nat) (s : Nat) :
    ∀ e : Executor, e.current ≤ n →
      (s ≤ 2 * (n - e.current) →
        ((e.repCount.getD 2 (0, 0)).2 = 0 ∨ (e.repCount.getD 2 (0, 0)).1 ≤ e.current) →
        dfs emailNfa (List.replicate n (ch 'a')) s 1 e = .stackOverflow) ∧
      (s ≤ 2 * (n - e.current) + 1 →
        ((e.repCount.getD 2 (0, 0)).2 = 0 ∨ (e.repCount.getD 2 (0, 0)).1 < e.current) →
        dfs emailNfa (List.replicate n (ch 'a')) s 2 e = .stackOverflow) := by
  induction s with
  | zero => intro e _; exact ⟨fun _ _ => rfl, fun _ _ => rfl⟩
  | succ s ih =>
    intro e he
    constructor
    · intro hs hrc
      have hlt : e.current < n := by omega
      have hB := (ih { e with current := e.current + 1 } (by simpa using hlt)).2
        (by simp only; omega) (by rcases hrc with h | h
                                  · exact Or.inl h
                                  · exact Or.inr (by simp only; omega))
      simp only [dfs, emailNfa_one, List.getElem?_replicate_of_lt hlt, emailLocalSet_a,
        if_true, hB]
    · intro hs hrc
      have hA := (ih { e with repCount := e.repCount.set 2 (e.current, 1) } he).1
        (by simp only; omega)
        (by rcases getD_set_self e.repCount 2 (e.current, 1) with h | h
            · right; simp only [h]; exact Nat.le_refl _
            · left; simp only [h])
      have hcond : (e.repCount.getD 2 (0, 0)).2 = 0 ∨
          (e.repCount.getD 2 (0, 0)).1 ≠ e.current := by
        rcases hrc with h | h
        · exact Or.inl h
        · exact Or.inr (by omega)
      simp only [dfs, emailNfa_two, Bool.not_false, if_true, repOnceMore, hcond, hA]

/-- With room for at most `2 * n + 1` activations, `isValidEmail` does not
return on a line of `n` letters `a`. -/
theorem isValidEmailOnStack_overflow (stack n : Nat) (h : stack ≤ 2 * n + 1) :
    isValidEmailOnStack stack (List.replicate n (ch 'a')) = .stackOverflow := by
  unfold isValidEmailOnStack regexMatchOnStack
  cases stack with
  | zero => rfl
  | succ s =>
    have hA := (dfs_overflow_a n s
      { current := 0, hasSol := false, repCount := List.replicate emailNfa.length (0, 0) }
      (Nat.zero_le _)).1 (by simp only; omega) (Or.inl (by decide))
    simp only [dfs, emailNfa_zero, hA]

/-! ### When the stack suffices, the matcher returns the value of `isValidEmail` -/

theorem set_set_getD (l : List (Nat × Nat)) (i : Nat) (x : Nat × Nat) :
    (l.set i x).set i (l.getD i (0, 0)) = l := by
  induction l generalizing i with
  | nil => rfl
  | cons y ys ih =>
    cases i with
    | zero => rfl
    | succ i => simp only [List.set_cons_succ, List.getD_cons_succ, ih]

theorem getD_set_ne (l : List (Nat × Nat)) {i j : Nat} (h : i ≠ j) (x : Nat × Nat) :
    (l.set i x).getD j (0, 0) = l.getD j (0, 0) := by
  rw [List.getD_eq_getElem?_getD, List.getD_eq_getElem?_getD, List.getElem?_set, if_neg h]

theorem drop_of_getElem? {t : Text} {c : Nat} {x : Byte} (h : t[c]? = some x) :
    t.drop c = x :: t.drop (c + 1) := by
  induction t generalizing c with
  | nil => simp at h
  | cons y ys ih =>
    cases c with
    | zero => simp at h; simp [h]
    | succ c => simp only [List.getElem?_cons_succ] at h; simpa using ih h

theorem drop_of_getElem?_none {t : Text} {c : Nat} (h : t[c]? = none) : t.drop c = [] := by
  rw [List.getElem?_eq_none_iff] at h
  exact List.drop_eq_nil_of_le h

/-- One activation in a `char` state. -/
theorem dfs_char_step {t : Text} {i j : Nat} {p : Byte → Bool}
    (hi : emailNfa[i]? = some (.char p j)) (s : Nat) (e : Executor)
    (hsol : e.hasSol = false) (F : Text → Bool)
    (hnext : ∀ x, t[e.current]? = some x → p x = true →
      dfs emailNfa t s j { e with current := e.current + 1 } =
        .returned { e with current := e.current + 1, hasSol := F (t.drop (e.current + 1)) }) :
    dfs emailNfa t (s + 1) i e =
      .returned { e with hasSol := acceptsChar p F (t.drop e.current) } := by
  obtain ⟨c, sol, rc⟩ := e
  simp only at hsol hnext ⊢
  subst hsol
  rw [dfs, hi]
  cases hx : t[c]? with
  | none => simp only [drop_of_getElem?_none hx, acceptsChar]
  | some x =>
    rw [drop_of_getElem? hx]
    by_cases hp : p x = true
    · simp only [hp, if_true, hnext x hx hp, acceptsChar, Bool.true_and, Nat.add_sub_cancel]
    · simp only [hp, Bool.false_eq_true, if_false, acceptsChar, Bool.false_and]

/-- One activation in a greedy `rep` state. -/
theorem dfs_rep_step {t : Text} {i next alt : Nat}
    (hi : emailNfa[i]? = some (.rep next alt false)) (s : Nat) (e : Executor)
    (hsol : e.hasSol = false) (hready : RepReady e i) (A N : Bool)
    (halt : dfs emailNfa t s alt { e with repCount := e.repCount.set i (e.current, 1) } =
      .returned { e with repCount := e.repCount.set i (e.current, 1), hasSol := A })
    (hnext : dfs emailNfa t s next e = .returned { e with hasSol := N }) :
    dfs emailNfa t (s + 1) i e = .returned { e with hasSol := A || N } := by
  obtain ⟨c, sol, rc⟩ := e
  simp only [RepReady] at hsol hready halt hnext ⊢
  subst hsol
  have hcond : (rc.getD i (0, 0)).2 = 0 ∨ (rc.getD i (0, 0)).1 ≠ c := by
    rcases hready with h | h
    · exact Or.inl h
    · exact Or.inr (by omega)
  rw [dfs, hi]
  simp only [Bool.not_false, if_true, repOnceMore, hcond, halt, set_set_getD]
  cases A with
  | false => simp only [Bool.not_false, if_true, hnext, Bool.false_or]
  | true => simp only [Bool.not_true, Bool.false_eq_true, if_false, Bool.true_or]

theorem dfs_accept (t : Text) (s : Nat) (e : Executor) :
    dfs emailNfa t (s + 1) 15 e =
      .returned { e with hasSol := decide (e.current = t.length) } := rfl

theorem dfs_subexprEnd (t : Text) (s : Nat) (e : Executor) :
    dfs emailNfa t (s + 2) 14 e =
      .returned { e with hasSol := decide (e.current = t.length) } := rfl

/-- State 12, the loop of the final label. -/
theorem dfs_state12 (t : Text) (r : Nat) :
    ∀ (s : Nat) (e : Executor), e.current + r = t.length → 2 * r + 3 ≤ s →
      e.hasSol = false → RepReady e 12 →
      dfs emailNfa t s 12 e =
        .returned { e with hasSol := accepts12 (t.drop e.current) } := by
  induction r with
  | zero =>
    intro s e hr hs hsol hready
    obtain ⟨s, rfl⟩ : ∃ s', s = s' + 3 := ⟨s - 3, by omega⟩
    have hnone : t[e.current]? = none := by
      rw [List.getElem?_eq_none_iff]; omega
    have halt := dfs_char_step (t := t) (i := 11) (j := 12) (p := letterSet) rfl (s + 1)
      { e with repCount := e.repCount.set 12 (e.current, 1) } hsol accepts12
      (fun x hx _ => by simp only [hnone] at hx; cases hx)
    simp only [drop_of_getElem?_none hnone, acceptsChar] at halt
    have h := dfs_rep_step (t := t) (i := 12) rfl (s + 2) e hsol hready false
      (decide (e.current = t.length)) halt (dfs_subexprEnd t s e)
    rw [h, drop_of_getElem?_none hnone]
    have : e.current = t.length := by omega
    simp [accepts12, this]
  | succ r ih =>
    intro s e hr hs hsol hready
    obtain ⟨s, rfl⟩ : ∃ s', s = s' + 3 := ⟨s - 3, by omega⟩
    have hlt : e.current < t.length := by omega
    obtain ⟨x, hx⟩ : ∃ x, t[e.current]? = some x :=
      ⟨t[e.current], List.getElem?_eq_getElem hlt⟩
    have halt := dfs_char_step (t := t) (i := 11) (j := 12) (p := letterSet) rfl (s + 1)
      { e with repCount := e.repCount.set 12 (e.current, 1) } hsol accepts12
      (fun _ _ _ => ih (s + 1)
        { e with repCount := e.repCount.set 12 (e.current, 1), current := e.current + 1 }
        (by simp only; omega) (by omega) hsol
        (by
          unfold RepReady
          rcases getD_set_self e.repCount 12 (e.current, 1) with h | h
          · right; simp only [h]; omega
          · left; simp only [h]))
    have h := dfs_rep_step (t := t) (i := 12) rfl (s + 2) e hsol hready _
      (decide (e.current = t.length)) halt (dfs_subexprEnd t s e)
    rw [h, drop_of_getElem? hx]
    have hne : ¬ e.current = t.length := by omega
    simp [accepts12, acceptsChar, hne]

theorem lt_length_of_getElem? {t : Text} {c : Nat} {x : Byte} (h : t[c]? = some x) :
    c < t.length := by
  by_contra hc
  rw [List.getElem?_eq_none_iff.mpr (by omega)] at h
  cases h

theorem repReady_succ {e : Executor} {k : Nat} (h : RepFresh e k) :
    RepReady { e with current := e.current + 1 } k := by
  unfold RepFresh at h
  unfold RepReady
  rcases h with h | h
  · exact Or.inl h
  · exact Or.inr (by simp only; omega)

theorem repFresh_succ {e : Executor} {k : Nat} (h : RepFresh e k) :
    RepFresh { e with current := e.current + 1 } k := by
  unfold RepFresh at h ⊢
  rcases h with h | h
  · exact Or.inl h
  · exact Or.inr (by simp only; omega)

theorem repFresh_of_ready {e : Executor} {k : Nat} (h : RepReady e k) : RepFresh e k := by
  unfold RepReady at h
  unfold RepFresh
  rcases h with h | h
  · exact Or.inl h
  · exact Or.inr (by omega)

theorem repFresh_set_self (e : Executor) (k : Nat) :
    RepFresh { e with repCount := e.repCount.set k (e.current, 1) } k := by
  unfold RepFresh
  rcases getD_set_self e.repCount k (e.current, 1) with h | h
  · right; simp only [h]; exact Nat.le_refl _
  · left; simp only [h]

theorem repFresh_set_ne {e : Executor} {i k : Nat} (hik : i ≠ k) (x : Nat × Nat)
    (h : RepFresh e k) : RepFresh { e with repCount := e.repCount.set i x } k := by
  unfold RepFresh at h ⊢
  simp only [getD_set_ne _ hik]
  exact h

theorem dfs_state12_of_le (t : Text) (s : Nat) (e : Executor) (hc : e.current ≤ t.length)
    (hs : 2 * (t.length - e.current) + 3 ≤ s) (hsol : e.hasSol = false)
    (hready : RepReady e 12) :
    dfs emailNfa t s 12 e = .returned { e with hasSol := accepts12 (t.drop e.current) } :=
  dfs_state12 t (t.length - e.current) s e (by omega) hs hsol hready

/-- State 10, the second letter of the final label. -/
theorem dfs_state10 (t : Text) (s : Nat) (e : Executor)
    (hs : 2 * (t.length - e.current) + 2 ≤ s) (hsol : e.hasSol = false)
    (h12 : RepFresh e 12) :
    dfs emailNfa t s 10 e =
      .returned { e with hasSol := acceptsChar letterSet accepts12 (t.drop e.current) } := by
  obtain ⟨s, rfl⟩ : ∃ s', s = s' + 1 := ⟨s - 1, by omega⟩
  exact dfs_char_step (i := 10) rfl s e hsol accepts12 (fun x hx _ => by
    have hlt := lt_length_of_getElem? hx
    exact dfs_state12_of_le t s { e with current := e.current + 1 } (by simpa using hlt)
      (by simp only; omega) hsol (repReady_succ h12))

/-- State 9, the first letter of the final label. -/
theorem dfs_state9 (t : Text) (s : Nat) (e : Executor)
    (hs : 2 * (t.length - e.current) + 2 ≤ s) (hsol : e.hasSol = false)
    (h12 : RepFresh e 12) :
    dfs emailNfa t s 9 e = .returned { e with hasSol := accepts9 (t.drop e.current) } := by
  obtain ⟨s, rfl⟩ : ∃ s', s = s' + 1 := ⟨s - 1, by omega⟩
  exact dfs_char_step (i := 9) rfl s e hsol (acceptsChar letterSet accepts12) (fun x hx _ => by
    have hlt := lt_length_of_getElem? hx
    exact dfs_state10 t s { e with current := e.current + 1 } (by simp only; omega) hsol
      (repFresh_succ h12))

/-- State 6, the dot before the final label. -/
theorem dfs_state6 (t : Text) (s : Nat) (e : Executor)
    (hs : 2 * (t.length - e.current) + 2 ≤ s) (hsol : e.hasSol = false)
    (h12 : RepFresh e 12) :
    dfs emailNfa t s 6 e =
      .returned { e with hasSol := acceptsChar (lit '.') accepts9 (t.drop e.current) } := by
  obtain ⟨s, rfl⟩ : ∃ s', s = s' + 1 := ⟨s - 1, by omega⟩
  exact dfs_char_step (i := 6) rfl s e hsol accepts9 (fun x hx _ => by
    have hlt := lt_length_of_getElem? hx
    exact dfs_state9 t s { e with current := e.current + 1 } (by simp only; omega) hsol
      (repFresh_succ h12))

theorem accepts5_eq (s : Text) :
    accepts5 s = (acceptsChar emailDomainSet accepts5 s || acceptsChar (lit '.') accepts9 s) := by
  cases s <;> simp [accepts5, acceptsChar]

theorem accepts2_eq (s : Text) :
    accepts2 s = (acceptsChar emailLocalSet accepts2 s ||
      acceptsChar (lit '@') (acceptsChar emailDomainSet accepts5) s) := by
  cases s <;> simp [accepts2, acceptsChar]

/-- State 5, the loop of the domain. -/
theorem dfs_state5 (t : Text) (r : Nat) :
    ∀ (s : Nat) (e : Executor), e.current + r = t.length → 2 * r + 3 ≤ s →
      e.hasSol = false → RepReady e 5 → RepFresh e 12 →
      dfs emailNfa t s 5 e = .returned { e with hasSol := accepts5 (t.drop e.current) } := by
  induction r with
  | zero =>
    intro s e hr hs hsol hready h12
    obtain ⟨s, rfl⟩ : ∃ s', s = s' + 3 := ⟨s - 3, by omega⟩
    have hnone : t[e.current]? = none := by
      rw [List.getElem?_eq_none_iff]; omega
    have halt := dfs_char_step (t := t) (i := 4) (j := 5) (p := emailDomainSet) rfl (s + 1)
      { e with repCount := e.repCount.set 5 (e.current, 1) } hsol accepts5
      (fun x hx _ => by simp only [hnone] at hx; cases hx)
    have h := dfs_rep_step (t := t) (i := 5) rfl (s + 2) e hsol hready _ _ halt
      (dfs_state6 t (s + 2) e (by omega) hsol h12)
    rw [h, accepts5_eq]
  | succ r ih =>
    intro s e hr hs hsol hready h12
    obtain ⟨s, rfl⟩ : ∃ s', s = s' + 3 := ⟨s - 3, by omega⟩
    have halt := dfs_char_step (t := t) (i := 4) (j := 5) (p := emailDomainSet) rfl (s + 1)
      { e with repCount := e.repCount.set 5 (e.current, 1) } hsol accepts5
      (fun _ _ _ => ih (s + 1)
        { e with repCount := e.repCount.set 5 (e.current, 1), current := e.current + 1 }
        (by simp only; omega) (by omega) hsol
        (repReady_succ (repFresh_set_self e 5))
        (repFresh_succ (repFresh_set_ne (by decide) _ h12)))
    have h := dfs_rep_step (t := t) (i := 5) rfl (s + 2) e hsol hready _ _ halt
      (dfs_state6 t (s + 2) e (by omega) hsol h12)
    rw [h, accepts5_eq]

theorem dfs_state5_of_le (t : Text) (s : Nat) (e : Executor) (hc : e.current ≤ t.length)
    (hs : 2 * (t.length - e.current) + 3 ≤ s) (hsol : e.hasSol = false)
    (hready : RepReady e 5) (h12 : RepFresh e 12) :
    dfs emailNfa t s 5 e = .returned { e with hasSol := accepts5 (t.drop e.current) } :=
  dfs_state5 t (t.length - e.current) s e (by omega) hs hsol hready h12

/-- State 4, the first character of the domain. -/
theorem dfs_state4 (t : Text) (s : Nat) (e : Executor)
    (hs : 2 * (t.length - e.current) + 2 ≤ s) (hsol : e.hasSol = false)
    (h5 : RepFresh e 5) (h12 : RepFresh e 12) :
    dfs emailNfa t s 4 e =
      .returned { e with hasSol := acceptsChar emailDomainSet accepts5 (t.drop e.current) } := by
  obtain ⟨s, rfl⟩ : ∃ s', s = s' + 1 := ⟨s - 1, by omega⟩
  exact dfs_char_step (i := 4) rfl s e hsol accepts5 (fun x hx _ => by
    have hlt := lt_length_of_getElem? hx
    exact dfs_state5_of_le t s { e with current := e.current + 1 } (by simpa using hlt)
      (by simp only; omega) hsol (repReady_succ h5) (repFresh_succ h12))

/-- State 3, the `@`. -/
theorem dfs_state3 (t : Text) (s : Nat) (e : Executor)
    (hs : 2 * (t.length - e.current) + 2 ≤ s) (hsol : e.hasSol = false)
    (h5 : RepFresh e 5) (h12 : RepFresh e 12) :
    dfs emailNfa t s 3 e =
      .returned
        { e with
          hasSol := acceptsChar (lit '@') (acceptsChar emailDomainSet accepts5)
            (t.drop e.current) } := by
  obtain ⟨s, rfl⟩ : ∃ s', s = s' + 1 := ⟨s - 1, by omega⟩
  exact dfs_char_step (i := 3) rfl s e hsol (acceptsChar emailDomainSet accepts5)
    (fun x hx _ => by
      have hlt := lt_length_of_getElem? hx
      exact dfs_state4 t s { e with current := e.current + 1 } (by simp only; omega) hsol
        (repFresh_succ h5) (repFresh_succ h12))

/-- State 2, the loop of the local part. -/
theorem dfs_state2 (t : Text) (r : Nat) :
    ∀ (s : Nat) (e : Executor), e.current + r = t.length → 2 * r + 3 ≤ s →
      e.hasSol = false → RepReady e 2 → RepFresh e 5 → RepFresh e 12 →
      dfs emailNfa t s 2 e = .returned { e with hasSol := accepts2 (t.drop e.current) } := by
  induction r with
  | zero =>
    intro s e hr hs hsol hready h5 h12
    obtain ⟨s, rfl⟩ : ∃ s', s = s' + 3 := ⟨s - 3, by omega⟩
    have hnone : t[e.current]? = none := by
      rw [List.getElem?_eq_none_iff]; omega
    have halt := dfs_char_step (t := t) (i := 1) (j := 2) (p := emailLocalSet) rfl (s + 1)
      { e with repCount := e.repCount.set 2 (e.current, 1) } hsol accepts2
      (fun x hx _ => by simp only [hnone] at hx; cases hx)
    have h := dfs_rep_step (t := t) (i := 2) rfl (s + 2) e hsol hready _ _ halt
      (dfs_state3 t (s + 2) e (by omega) hsol h5 h12)
    rw [h, accepts2_eq]
  | succ r ih =>
    intro s e hr hs hsol hready h5 h12
    obtain ⟨s, rfl⟩ : ∃ s', s = s' + 3 := ⟨s - 3, by omega⟩
    have halt := dfs_char_step (t := t) (i := 1) (j := 2) (p := emailLocalSet) rfl (s + 1)
      { e with repCount := e.repCount.set 2 (e.current, 1) } hsol accepts2
      (fun _ _ _ => ih (s + 1)
        { e with repCount := e.repCount.set 2 (e.current, 1), current := e.current + 1 }
        (by simp only; omega) (by omega) hsol
        (repReady_succ (repFresh_set_self e 2))
        (repFresh_succ (repFresh_set_ne (by decide) _ h5))
        (repFresh_succ (repFresh_set_ne (by decide) _ h12)))
    have h := dfs_rep_step (t := t) (i := 2) rfl (s + 2) e hsol hready _ _ halt
      (dfs_state3 t (s + 2) e (by omega) hsol h5 h12)
    rw [h, accepts2_eq]

/-- With room for `2 * length + 3` activations the matcher returns, and it
returns what the automaton accepts. -/
theorem regexMatchOnStack_email (t : Text) (stack : Nat) (h : 2 * t.length + 3 ≤ stack) :
    regexMatchOnStack emailNfa stack t = .returned (acceptsChar emailLocalSet accepts2 t) := by
  obtain ⟨s, rfl⟩ : ∃ s', stack = s' + 2 := ⟨stack - 2, by omega⟩
  have hfresh : ∀ k, RepFresh
      { current := 0, hasSol := false, repCount := List.replicate emailNfa.length (0, 0) } k := by
    intro k
    left
    simp only [List.getD_eq_getElem?_getD, List.getElem?_replicate]
    split <;> rfl
  have h1 := dfs_char_step (t := t) (i := 1) (j := 2) (p := emailLocalSet) rfl s
    { current := 0, hasSol := false, repCount := List.replicate emailNfa.length (0, 0) } rfl
    accepts2 (fun x hx _ => by
      have hlt := lt_length_of_getElem? hx
      exact dfs_state2 t (t.length - 1) s _ (by simp only; omega) (by omega) rfl
        (repReady_succ (hfresh 2)) (repFresh_succ (hfresh 5)) (repFresh_succ (hfresh 12)))
  have h0 : dfs emailNfa t (s + 2) 0
      { current := 0, hasSol := false, repCount := List.replicate emailNfa.length (0, 0) } =
      dfs emailNfa t (s + 1) 1
        { current := 0, hasSol := false, repCount := List.replicate emailNfa.length (0, 0) } :=
    rfl
  simp only [regexMatchOnStack, h0, h1, List.drop_zero]

theorem accepts9_iff (s : Text) :
    accepts9 s = true ↔ 2 ≤ s.length ∧ ∀ c ∈ s, letterSet c = true := by
  match s with
  | [] => simp [accepts9, acceptsChar]
  | [a] => simp [accepts9, acceptsChar]
  | a :: b :: rest =>
    simp only [accepts9, acceptsChar, accepts12, Bool.and_eq_true, List.all_eq_true,
      List.length_cons, List.mem_cons, forall_eq_or_imp]
    constructor
    · rintro ⟨ha, hb, hr⟩; exact ⟨by omega, ha, hb, hr⟩
    · rintro ⟨-, ha, hb, hr⟩; exact ⟨ha, hb, hr⟩

theorem accepts5_iff (s : Text) :
    accepts5 s = true ↔
      ∃ dom tld, s = dom ++ ch '.' :: tld ∧ (∀ c ∈ dom, emailDomainSet c = true) ∧
        accepts9 tld = true := by
  induction s with
  | nil => simp [accepts5]
  | cons c cs ih =>
    simp only [accepts5, Bool.or_eq_true, Bool.and_eq_true, ih, lit_iff]
    constructor
    · rintro (⟨hc, dom, tld, rfl, hdom, htld⟩ | ⟨rfl, htld⟩)
      · exact ⟨c :: dom, tld, rfl, by simpa [hc] using hdom, htld⟩
      · exact ⟨[], cs, rfl, by simp, htld⟩
    · rintro ⟨dom, tld, h, hdom, htld⟩
      cases dom with
      | nil =>
        simp only [List.nil_append, List.cons.injEq] at h
        obtain ⟨rfl, rfl⟩ := h
        exact Or.inr ⟨rfl, htld⟩
      | cons d ds =>
        simp only [List.cons_append, List.cons.injEq] at h
        obtain ⟨rfl, rfl⟩ := h
        exact Or.inl ⟨hdom c (List.mem_cons_self _ _), ds, tld, rfl,
          fun x hx => hdom x (List.mem_cons_of_mem _ hx), htld⟩

theorem accepts4_iff (s : Text) :
    acceptsChar emailDomainSet accepts5 s = true ↔
      ∃ dom tld, s = dom ++ ch '.' :: tld ∧ dom ≠ [] ∧
        (∀ c ∈ dom, emailDomainSet c = true) ∧ accepts9 tld = true := by
  cases s with
  | nil => simp [acceptsChar]
  | cons c cs =>
    simp only [acceptsChar, Bool.and_eq_true, accepts5_iff]
    constructor
    · rintro ⟨hc, dom, tld, rfl, hdom, htld⟩
      exact ⟨c :: dom, tld, rfl, by simp, by simpa [hc] using hdom, htld⟩
    · rintro ⟨dom, tld, h, hne, hdom, htld⟩
      cases dom with
      | nil => exact absurd rfl hne
      | cons d ds =>
        simp only [List.cons_append, List.cons.injEq] at h
        obtain ⟨rfl, rfl⟩ := h
        exact ⟨hdom c (List.mem_cons_self _ _), ds, tld, rfl,
          fun x hx => hdom x (List.mem_cons_of_mem _ hx), htld⟩

theorem accepts2_iff (s : Text) :
    accepts2 s = true ↔
      ∃ loc rest, s = loc ++ ch '@' :: rest ∧ (∀ c ∈ loc, emailLocalSet c = true) ∧
        acceptsChar emailDomainSet accepts5 rest = true := by
  induction s with
  | nil => simp [accepts2]
  | cons c cs ih =>
    simp only [accepts2, Bool.or_eq_true, Bool.and_eq_true, ih, lit_iff]
    constructor
    · rintro (⟨hc, loc, rest, rfl, hloc, hrest⟩ | ⟨rfl, hrest⟩)
      · exact ⟨c :: loc, rest, rfl, by simpa [hc] using hloc, hrest⟩
      · exact ⟨[], cs, rfl, by simp, hrest⟩
    · rintro ⟨loc, rest, h, hloc, hrest⟩
      cases loc with
      | nil =>
        simp only [List.nil_append, List.cons.injEq] at h
        obtain ⟨rfl, rfl⟩ := h
        exact Or.inr ⟨rfl, hrest⟩
      | cons d ds =>
        simp only [List.cons_append, List.cons.injEq] at h
        obtain ⟨rfl, rfl⟩ := h
        exact Or.inl ⟨hloc c (List.mem_cons_self _ _), ds, rest, rfl,
          fun x hx => hloc x (List.mem_cons_of_mem _ hx), hrest⟩

theorem accepts1_iff (s : Text) :
    acceptsChar emailLocalSet accepts2 s = true ↔ EmailShape s := by
  unfold EmailShape
  cases s with
  | nil =>
    simp only [acceptsChar, Bool.false_eq_true, false_iff]
    rintro ⟨loc, dom, tld, h, -⟩
    cases loc <;> simp at h
  | cons c cs =>
    rw [show acceptsChar emailLocalSet accepts2 (c :: cs) = (emailLocalSet c && accepts2 cs)
      from rfl]
    simp only [Bool.and_eq_true, accepts2_iff, accepts4_iff, accepts9_iff]
    constructor
    · rintro ⟨hc, loc, rest, rfl, hloc, dom, tld, rfl, hne, hdom, h2, htld⟩
      refine ⟨c :: loc, dom, tld, rfl, ⟨by simp, ?_⟩, ⟨hne, ?_⟩, ⟨h2, ?_⟩, ?_⟩
      · intro x hx
        rcases List.mem_cons.mp hx with rfl | hx
        · exact emailLocalSet_iff.mp hc
        · exact emailLocalSet_iff.mp (hloc x hx)
      · exact fun x hx => emailDomainSet_iff.mp (hdom x hx)
      · exact fun x hx => letterSet_iff.mp (htld x hx)
      · exact fun hx => not_isLetter_dot (letterSet_iff.mp (htld _ hx))
    · rintro ⟨loc, dom, tld, h, ⟨hne, hloc⟩, ⟨hdne, hdom⟩, ⟨h2, htld⟩, -⟩
      cases loc with
      | nil => exact absurd rfl hne
      | cons d ds =>
        simp only [List.cons_append, List.cons.injEq] at h
        obtain ⟨rfl, rfl⟩ := h
        exact ⟨emailLocalSet_iff.mpr (hloc c (List.mem_cons_self _ _)), ds, _, rfl,
          fun x hx => emailLocalSet_iff.mpr (hloc x (List.mem_cons_of_mem _ hx)),
          dom, tld, rfl, hdne, fun x hx => emailDomainSet_iff.mpr (hdom x hx), h2,
          fun x hx => letterSet_iff.mpr (htld x hx)⟩

/-- With room for `2 * length + 3` nested activations of the matcher,
`isValidEmail` returns, and it returns the value that `regex_match` has by the
meaning of the pattern. -/
theorem isValidEmailOnStack_returns (t : Text) (stack : Nat) (h : 2 * t.length + 3 ≤ stack) :
    isValidEmailOnStack stack t = .returned (isValidEmail t) := by
  unfold isValidEmailOnStack
  rw [regexMatchOnStack_email t stack h]
  congr 1
  rw [Bool.eq_iff_iff, accepts1_iff, isValidEmail_iff]

/-- C11: `isValidEmail` does not return a boolean for every text. Its
`regex_match` is a recursion two activations deep per character of the local
part, so on a stack with room for `stack` activations a line of `n` letters `a`
with `stack ≤ 2 * n + 1` exhausts the stack: the process is killed, which is
not a `regex_error`, so the handler that returns `false` does not run. Where
the stack suffices (`2 * length + 3 ≤ stack`) the call does return, with the
value the pattern defines. -/
theorem isValidEmail_exhausts_stack (stack : Nat) :
    (∀ n : Nat, stack ≤ 2 * n + 1 →
      isValidEmailOnStack stack (List.replicate n (ch 'a')) = .stackOverflow) ∧
      (∀ t : Text, 2 * t.length + 3 ≤ stack →
        isValidEmailOnStack stack t = .returned (isValidEmail t)) :=
  ⟨fun n h => isValidEmailOnStack_overflow stack n h,
    fun t h => isValidEmailOnStack_returns t stack h⟩

set_option maxRecDepth 100000 in
theorem isValidEmail_exhausts_stack_witness :
    (120001 ≤ 2 * 60000 + 1 ∧
      isValidEmailOnStack 120001 (List.replicate 60000 (ch 'a')) = .stackOverflow) ∧
      (2 * (str "alice@example.com").length + 3 ≤ 120001 ∧
        isValidEmailOnStack 120001 (str "alice@example.com") = .returned true) :=
  ⟨⟨by decide, (isValidEmail_exhausts_stack 120001).1 60000 (by decide)⟩,
    ⟨by decide, (isValidEmail_exhausts_stack 120001).2 (str "alice@example.com") (by decide)⟩⟩

end ContactManagement
